import Mathlib

/-!
# forms/select: the select replacement of MUI (`src/js/forms/select.js`)

A shallow embedding of the two classes of the module, `Select` (one per
`<select>` element) and `Menu` (one per open overlay), over an explicit
state of the page: the options of the select element, the adapter flag,
the listeners each object has attached and the two zero-delay timers a
`Menu` schedules when it is constructed.

Conventions.
* A JavaScript `TypeError` (a property read on `undefined` or `null`) is a
  value: `Option` where nothing was written before the throw, and
  `Except σ σ` where the state reached at the throw matters
  (`.error s` is "thrown, leaving state `s`").
* Listeners are flags or lists in the state, written by `jqLite.on` and
  `jqLite.off`; a timer of `setTimeout(fn, 0)` is a flag that stays set until
  the timer fires.
* Lengths in pixels are numbers; the text `'px'` is not modelled.
-/

namespace MuiSelect

/-! ## Constants -/

/-- `optionHeight = 42` (line 14). -/
def optionHeight : Int := 42

/-- `menuPadding = 8` (line 15). -/
def menuPadding : Int := 8

/-! ## Data model -/

/-- One child of the select element: its text and its `selected` flag. -/
structure OptionEl where
  textContent : String
  selected : Bool
deriving DecidableEq

/-- One row of the menu element: the text copied from the option, the
`_muiPos` tag and the `selected` attribute. -/
structure ItemEl where
  textContent : String
  muiPos : Nat
  selected : Bool
deriving DecidableEq

/-- Which element is `document.activeElement`. -/
inductive Active where
  | body
  | select
  | wrapper
  | other
deriving DecidableEq

/-- The `Select` object together with the part of the page it reads and
writes: the children of `selectEl`, its `disabled` and `tabIndex`
properties, the number of `change` events dispatched on it, the flag
`useDefault`, the focus, and the two layout readings of `_createMenuEl`.

`hooks` holds one entry per run of `focusHandler` whose wrapper blur has not
happened yet: that run attached `keydownFn` to the document and a one-shot
`blur` handler to the wrapper, and the entry is the `origIndex` the blur
handler restores. The two listeners are attached together and removed
together, so one list stands for both. -/
structure Select where
  children : List OptionEl
  disabled : Bool
  tabIndex : Int
  changeEvents : Nat
  useDefault : Bool
  hooks : List Int
  active : Active
  clientHeight : Int
  rectTop : ℚ

/-- The `Menu` object: `origIndex`, `currentIndex`, the rows of `menuEl`
with the two styles written at construction, whether `menuEl` has a parent
node, the four listeners and the two timers that have not fired yet. -/
structure Menu where
  origIndex : Nat
  currentIndex : Nat
  rows : List ItemEl
  height : Int
  top : ℚ
  inDom : Bool
  clickL : Bool
  keydownL : Bool
  resizeL : Bool
  docClickL : Bool
  blurPending : Bool
  docClickPending : Bool

/-- One select element and every `Menu` constructed for it so far, in
order of construction. -/
structure Page where
  select : Select
  menus : List Menu

/-- The state an uncaught exception leaves behind, or the state reached. -/
def settle {σ : Type} : Except σ σ → σ
  | .ok s => s
  | .error s => s

/-! ## The helpers of `lib/jqLite.js` and `lib/util.js` -/

/-- Modelled from the spec: `jqLite.on` of `lib/jqLite.js`, absent from the
sources, a reliable attach primitive. The argument says whether the listener
was attached before the call, the result whether it is after. -/
@[simp] def jqLite.on (_attached : Bool) : Bool := true

/-- Modelled from the spec: `jqLite.off` of `lib/jqLite.js`, absent from the
sources, a reliable detach primitive; detaching a listener that is not
attached does nothing. -/
@[simp] def jqLite.off (_attached : Bool) : Bool := false

/-- Modelled from the spec: `util.dispatchEvent` of `lib/util.js`, absent
from the sources, which emits one notification on the element. The argument
is the number of `change` events sent so far. -/
@[simp] def util.dispatchEvent (sent : Nat) : Nat := sent + 1

/-! ## Element helpers -/

/-- `children[k].setAttribute('selected', true)` for `v = true` and
`children[k].removeAttribute('selected')` for `v = false` on the rows of a
menu element; `none` when `children[k]` is `undefined`. -/
def markRow (rows : List ItemEl) (k : Nat) (v : Bool) : Option (List ItemEl) :=
  match rows[k]? with
  | none => none
  | some r => some (rows.set k { r with selected := v })

/-- `selectEl.children[k].selected = v`, as a plain write of the flag;
`none` when `children[k]` is `undefined`. -/
def writeSelected (children : List OptionEl) (k : Nat) (v : Bool) :
    Option (List OptionEl) :=
  match children[k]? with
  | none => none
  | some o => some (children.set k { o with selected := v })

/-! ## Focus, as the page moves it

`focus()` on an element that can take focus and does not have it blurs the
active element, makes the element active and dispatches `focus` on it; a
disabled select cannot take focus. -/

/-- Modelled from the spec: `jqLite.one` and `jqLite.off` of `lib/jqLite.js`
(a one-shot listener runs at the next event and never again; `off` detaches
the listener it is given). The `blur` event on the wrapper: every pending
one-shot handler of `focusHandler` (lines 92-95) runs in order of
registration, restoring `tabIndex` and detaching its `keydownFn`. -/
def wrapperBlurred (s : Select) : Select :=
  { s with tabIndex := s.hooks.foldl (fun _ origIndex => origIndex) s.tabIndex,
           hooks := [] }

/-- `wrapperEl.blur()`. -/
def blurWrapper (s : Select) : Select :=
  if s.active = Active.wrapper then { wrapperBlurred s with active := Active.body } else s

/-- `Select.prototype.wrapperFocusHandler` (lines 119-122). -/
def Select.wrapperFocusHandler (s : Select) : Select :=
  if s.disabled then blurWrapper s else s

/-- `wrapperEl.focus()`: the wrapper has `tabIndex = -1` (line 49), so it
can take focus. Leaving the select dispatches no handler of this module. -/
def focusWrapper (s : Select) : Select :=
  if s.active = Active.wrapper then s
  else Select.wrapperFocusHandler { s with active := Active.wrapper }

/-! ## Select -/

/-- `Select.prototype.touchstartHandler` (lines 58-61). -/
def Select.touchstartHandler (s : Select) : Select :=
  { s with useDefault := true }

/-- `Select.prototype.mousedownHandler` (lines 68-71): the state is not
written; the result says whether `ev.preventDefault()` was called. -/
def Select.mousedownHandler (button : Int) (s : Select) : Bool :=
  if button ≠ 0 ∨ s.useDefault = true then false else true

/-- `Select.prototype.focusHandler` (lines 78-99). -/
def Select.focusHandler (s : Select) : Select :=
  if s.useDefault = true then s
  else
    let origIndex := s.tabIndex
    let s1 := { s with hooks := s.hooks ++ [origIndex] }
    let s2 := { s1 with tabIndex := -1 }
    focusWrapper s2

/-- `selectEl.focus()`. -/
def focusSelect (s : Select) : Select :=
  if s.disabled = true ∨ s.active = Active.select then s
  else
    let s1 := if s.active = Active.wrapper then wrapperBlurred s else s
    Select.focusHandler { s1 with active := Active.select }

/-! ## Menu -/

/-- The loop of `_createMenuEl` (lines 200-210) from index `i` on: the rows
appended and the final value of `selectedPos`. -/
def addOptions : List OptionEl → Nat → Nat → List ItemEl × Nat
  | [], _, selectedPos => ([], selectedPos)
  | optionEl :: rest, i, selectedPos =>
    let itemEl : ItemEl :=
      { textContent := optionEl.textContent, muiPos := i, selected := false }
    let r := addOptions rest (i + 1) (if optionEl.selected then i else selectedPos)
    (itemEl :: r.1, r.2)

/-- `Menu.prototype._createMenuEl` (lines 187-237). The result carries the
rows, the two indices saved on `this` and the two styles; it has no parent
node and no listener yet. `none` is the `TypeError` of line 213 when
`menuEl.children[selectedPos]` is `undefined`. -/
def Menu._createMenuEl (selectEl : Select) : Option Menu :=
  let optionList := selectEl.children
  let m := optionList.length
  let r := addOptions optionList 0 0
  let selectedPos := r.2
  match markRow r.1 selectedPos true with
  | none => none
  | some rows =>
    let viewHeight := selectEl.clientHeight
    let height : Int := (m : Int) * optionHeight + 2 * menuPadding
    let height := min height viewHeight
    let top : ℚ := 13
    let top : ℚ := top + (selectedPos : ℚ) * (optionHeight : ℚ)
    let top := min top selectEl.rectTop
    some { origIndex := selectedPos, currentIndex := selectedPos, rows := rows,
           height := height, top := -1 * top, inDom := false,
           clickL := false, keydownL := false, resizeL := false, docClickL := false,
           blurPending := false, docClickPending := false }

/-- The constructor `Menu` (lines 151-180): the element is appended to the
wrapper, the timer of lines 165-170 is scheduled, three listeners are
attached and the timer of line 179 is scheduled. -/
def newMenu (selectEl : Select) : Option Menu :=
  match Menu._createMenuEl selectEl with
  | none => none
  | some self =>
    some { self with inDom := true, blurPending := true,
                     clickL := jqLite.on self.clickL,
                     keydownL := jqLite.on self.keydownL,
                     resizeL := jqLite.on self.resizeL,
                     docClickPending := true }

/-- `Menu.prototype.increment` (lines 293-299). -/
def Menu.increment (self : Menu) : Except Menu Menu :=
  if (self.currentIndex : Int) = (self.rows.length : Int) - 1 then .ok self
  else
    match markRow self.rows self.currentIndex false with
    | none => .error self
    | some rows1 =>
      let self1 := { self with rows := rows1, currentIndex := self.currentIndex + 1 }
      match markRow self1.rows self1.currentIndex true with
      | none => .error self1
      | some rows2 => .ok { self1 with rows := rows2 }

/-- `Menu.prototype.decrement` (lines 305-311). -/
def Menu.decrement (self : Menu) : Except Menu Menu :=
  if self.currentIndex = 0 then .ok self
  else
    match markRow self.rows self.currentIndex false with
    | none => .error self
    | some rows1 =>
      let self1 := { self with rows := rows1, currentIndex := self.currentIndex - 1 }
      match markRow self1.rows self1.currentIndex true with
      | none => .error self1
      | some rows2 => .ok { self1 with rows := rows2 }

/-- `Menu.prototype.selectCurrent` (lines 317-325). `util.dispatchEvent`
of `lib/util.js` is counted in `changeEvents`. -/
def Menu.selectCurrent (self : Menu) (selectEl : Select) : Except Select Select :=
  if self.currentIndex ≠ self.origIndex then
    match writeSelected selectEl.children self.origIndex false with
    | none => .error selectEl
    | some children1 =>
      let selectEl1 := { selectEl with children := children1 }
      match writeSelected selectEl1.children self.currentIndex true with
      | none => .error selectEl1
      | some children2 =>
        .ok { selectEl1 with children := children2,
                             changeEvents := util.dispatchEvent selectEl1.changeEvents }
  else .ok selectEl

/-- `Menu.prototype.destroy` (lines 331-341). `menuEl.parentNode` is `null`
once the element has been removed, so a second call throws at line 333.
The element is removed first, the select element focused next, the
listeners detached last. -/
def Menu.destroy (w : Menu × Select) : Except (Menu × Select) (Menu × Select) :=
  if w.1.inDom = false then .error w
  else
    let self := { w.1 with inDom := false }
    let selectEl := focusSelect w.2
    .ok ({ self with clickL := jqLite.off self.clickL,
                     keydownL := jqLite.off self.keydownL,
                     docClickL := jqLite.off self.docClickL,
                     resizeL := jqLite.off self.resizeL }, selectEl)

/-- The menu as `destroy` leaves it: the element removed (line 333) and the
four listeners detached (lines 337-340). -/
def Menu.removed (self : Menu) : Menu :=
  { self with inDom := false, clickL := false, keydownL := false,
              docClickL := false, resizeL := false }

/-- Whether `Menu.prototype.keydownHandler` calls `ev.preventDefault()`
(lines 251-253; the tab branch returns before). -/
def Menu.keydownPreventsDefault (keyCode : Int) : Bool :=
  if keyCode = 9 then false
  else if keyCode = 27 ∨ keyCode = 40 ∨ keyCode = 38 ∨ keyCode = 13 then true
  else false

/-- Run a method that touches the menu only. -/
def onMenu (f : Menu → Except Menu Menu) (w : Menu × Select) :
    Except (Menu × Select) (Menu × Select) :=
  match f w.1 with
  | .ok self => .ok (self, w.2)
  | .error self => .error (self, w.2)

/-- Run `selectCurrent`, which touches the select element only. -/
def onSelect (w : Menu × Select) : Except (Menu × Select) (Menu × Select) :=
  match Menu.selectCurrent w.1 w.2 with
  | .ok selectEl => .ok (w.1, selectEl)
  | .error selectEl => .error (w.1, selectEl)

/-- `Menu.prototype.keydownHandler` (lines 244-265). -/
def Menu.keydownHandler (keyCode : Int) (w : Menu × Select) :
    Except (Menu × Select) (Menu × Select) :=
  if keyCode = 9 then Menu.destroy w
  else if keyCode = 27 then Menu.destroy w
  else if keyCode = 40 then onMenu Menu.increment w
  else if keyCode = 38 then onMenu Menu.decrement w
  else if keyCode = 13 then
    match onSelect w with
    | .ok w1 => Menu.destroy w1
    | .error w1 => .error w1
  else .ok w

/-- The value of `ev.target._muiPos` (line 276): the target of a click on
the menu element is a row, given by its index among the children, or the
menu element itself, which has no `_muiPos`. -/
def targetPos (self : Menu) (target : Option Nat) : Option Nat :=
  match target with
  | none => none
  | some k => (self.rows[k]?).map ItemEl.muiPos

/-- `Menu.prototype.clickHandler` (lines 272-287); `ev.stopPropagation()`
is accounted for where the event is dispatched. -/
def Menu.clickHandler (target : Option Nat) (w : Menu × Select) :
    Except (Menu × Select) (Menu × Select) :=
  match targetPos w.1 target with
  | none => .ok w
  | some pos =>
    let w1 : Menu × Select := ({ w.1 with currentIndex := pos }, w.2)
    match onSelect w1 with
    | .ok w2 => Menu.destroy w2
    | .error w2 => .error w2

/-! ## The page: adapter methods that construct a menu -/

/-- `Select.prototype.renderMenu` (lines 139-144). A `TypeError` inside the
constructor leaves the page as it was. -/
def Select.renderMenu (p : Page) : Page :=
  if p.select.useDefault = true then
    { p with select := { p.select with useDefault := false } }
  else
    match newMenu p.select with
    | none => p
    | some self => { p with menus := p.menus ++ [self] }

/-- `Select.prototype.clickHandler` (lines 129-133). -/
def Select.clickHandler (button : Int) (p : Page) : Page :=
  if button ≠ 0 then p else Select.renderMenu p

/-- Whether `Select.prototype.keydownHandler` calls `ev.preventDefault()`
(line 109). -/
def Select.keydownPreventsDefault (keyCode : Int) : Bool :=
  if keyCode = 32 ∨ keyCode = 38 ∨ keyCode = 40 then true else false

/-- `Select.prototype.keydownHandler` (lines 105-113). -/
def Select.keydownHandler (keyCode : Int) (p : Page) : Page :=
  if keyCode = 32 ∨ keyCode = 38 ∨ keyCode = 40 then
    if p.select.disabled ≠ true then Select.renderMenu p else p
  else p

/-! ## The page: events -/

/-- What can happen to the page. `menuClick i target` is a click inside the
element of the `i`-th menu, `outsideClick` a click that reaches the document
from elsewhere than the select element or a menu, `blurTimer i` and
`clickTimer i` the firing of the timers of lines 165 and 179 of the `i`-th
menu. -/
inductive Event where
  | touchstart
  | mousedown (button : Int)
  | focus
  | wrapperFocus
  | wrapperBlur
  | click (button : Int)
  | keydown (keyCode : Int)
  | menuClick (i : Nat) (target : Option Nat)
  | outsideClick
  | resize
  | blurTimer (i : Nat)
  | clickTimer (i : Nat)
deriving DecidableEq

/-- Dispatch one event to the listener `f` of every menu that has it
attached (`has`), in order of construction. A listener of a menu writes that
menu and the select element only, and an exception in one listener does not
stop the next. -/
def runMenus (has : Menu → Bool)
    (f : Menu × Select → Except (Menu × Select) (Menu × Select)) :
    List Menu → Select → List Menu × Select
  | [], s => ([], s)
  | self :: rest, s =>
    let w := if has self = true then settle (f (self, s)) else (self, s)
    let r := runMenus has f rest w.2
    (w.1 :: r.1, r.2)

/-- Dispatch to the listener `f` of the `i`-th menu alone. -/
def runMenu (i : Nat) (has : Menu → Bool)
    (f : Menu × Select → Except (Menu × Select) (Menu × Select)) (p : Page) : Page :=
  match p.menus[i]? with
  | none => p
  | some self =>
    if has self = true then
      let w := settle (f (self, p.select))
      { select := w.2, menus := p.menus.set i w.1 }
    else p

/-- The body of the timer of lines 165-170: blur the active element unless
it is the body. Only the wrapper has a blur handler of this module. -/
def blurActive (s : Select) : Select :=
  if s.active = Active.body then s
  else if s.active = Active.wrapper then blurWrapper s
  else { s with active := Active.body }

/-- One event, dispatched to every listener of this module that is attached
when the dispatch starts.

* `keydown`: the document has the `keydownCallbackFn` of every menu with
  `keydownL` and one `keydownFn` of the adapter per entry of `hooks`. For
  every key code one of the two kinds does nothing or writes its own menu
  only, so the order between them does not matter; a menu constructed
  during the dispatch is not called in it.
* `click`: the handler of the select element, then the document.
* `menuClick`: the handler stops the propagation, so the document is not
  reached. -/
def step (p : Page) : Event → Page
  | .touchstart => { p with select := Select.touchstartHandler p.select }
  | .mousedown _ => p
  | .focus => { p with select := focusSelect p.select }
  | .wrapperFocus => { p with select := focusWrapper p.select }
  | .wrapperBlur => { p with select := blurWrapper p.select }
  | .click button =>
    let p1 := Select.clickHandler button p
    let r := runMenus Menu.docClickL Menu.destroy p1.menus p1.select
    { select := r.2, menus := r.1 }
  | .keydown keyCode =>
    let r := runMenus Menu.keydownL (Menu.keydownHandler keyCode) p.menus p.select
    (Select.keydownHandler keyCode)^[p.select.hooks.length] { select := r.2, menus := r.1 }
  | .menuClick i target => runMenu i Menu.clickL (Menu.clickHandler target) p
  | .outsideClick =>
    let r := runMenus Menu.docClickL Menu.destroy p.menus p.select
    { select := r.2, menus := r.1 }
  | .resize =>
    let r := runMenus Menu.resizeL Menu.destroy p.menus p.select
    { select := r.2, menus := r.1 }
  | .blurTimer i =>
    match p.menus[i]? with
    | none => p
    | some self =>
      if self.blurPending = true then
        { select := blurActive p.select,
          menus := p.menus.set i { self with blurPending := false } }
      else p
  | .clickTimer i =>
    match p.menus[i]? with
    | none => p
    | some self =>
      if self.docClickPending = true then
        { p with menus := p.menus.set i { self with docClickPending := false,
                                                     docClickL := jqLite.on self.docClickL } }
      else p

/-- The page after a sequence of events. -/
def run (p : Page) (evs : List Event) : Page :=
  evs.foldl step p

/-- The constructor `Select` (lines 36-52) on a page where nothing has
focus: the flag is cleared, no menu exists, no `change` has been sent. The
permanent listeners of lines 43-51 are the cases of `step`. -/
def newSelect (children : List OptionEl) (disabled : Bool) (tabIndex : Int)
    (clientHeight : Int) (rectTop : ℚ) : Page :=
  { select := { children := children, disabled := disabled, tabIndex := tabIndex,
                changeEvents := 0, useDefault := false, hooks := [],
                active := Active.body, clientHeight := clientHeight, rectTop := rectTop },
    menus := [] }

/-- Number of menus whose element is in the document. -/
def openCount (p : Page) : Nat :=
  (p.menus.filter Menu.inDom).length

/-! ## Sequences of arrow keys and the ways out of a menu -/

/-- The two arrow keys. -/
inductive Arrow where
  | up
  | down
deriving DecidableEq

/-- Key code of an arrow key: 38 is up, 40 is down. -/
def Arrow.keyCode : Arrow → Int
  | .up => 38
  | .down => 40

/-- The menu and the select element after a sequence of arrow keys handled
by `Menu.prototype.keydownHandler`. -/
def pressArrows (w : Menu × Select) (arrows : List Arrow) : Menu × Select :=
  arrows.foldl (fun v a => settle (Menu.keydownHandler a.keyCode v)) w

/-- The fields of the select element that no focus change writes: `a` and
`b` agree on the options, `disabled`, the `change` events sent, the flag
`useDefault` and the two layout readings. -/
def sameControl (a b : Select) : Prop :=
  a.children = b.children ∧ a.disabled = b.disabled ∧ a.changeEvents = b.changeEvents ∧
  a.useDefault = b.useDefault ∧ a.clientHeight = b.clientHeight ∧ a.rectTop = b.rectTop

/-- At most one `keydownFn` of the adapter is attached, and none unless the
wrapper has the focus. -/
def tame (s : Select) : Prop :=
  s.hooks.length ≤ 1 ∧ (s.active ≠ Active.wrapper → s.hooks = [])

/-- A menu over `m` options: `m` rows, the `k`-th tagged `k`, and
`currentIndex` below `m`. -/
def Menu.inRange (m : Nat) (self : Menu) : Prop :=
  self.rows.length = m ∧ self.currentIndex < m ∧
  ∀ k : Nat, (self.rows[k]?).map ItemEl.muiPos = if k < m then some k else none

/-- What one listener may do to its menu: keep it in range, and never put
its element back into the document. -/
def keeps (m : Nat) (a b : Menu) : Prop :=
  (a.inRange m → b.inRange m) ∧ (b.inDom = true → a.inDom = true)

/-- The select element keeps `m` options and a tame adapter. -/
def steady (m : Nat) (s : Select) : Prop :=
  s.children.length = m ∧ tame s

/-- A property of the select element that survives what a listener of a
menu does to it: focusing it, and replacing its options by as many options
or counting a `change` event. -/
def survives (S : Select → Prop) : Prop :=
  (∀ s, S s → S (focusSelect s)) ∧
  (∀ s (c : List OptionEl) (n : Nat), S s → c.length = s.children.length →
    S { s with children := c, changeEvents := n })

/-- The select element has an option, the flag `useDefault` is cleared and
`disabled` is `d`: the next call of `renderMenu` constructs a menu. -/
def ready (d : Bool) (s : Select) : Prop :=
  s.useDefault = false ∧ s.children ≠ [] ∧ s.disabled = d

/-- The page invariant: every menu is in range over the `m` options of the
select element, and the adapter is tame. -/
def Page.sound (m : Nat) (p : Page) : Prop :=
  (∀ self ∈ p.menus, Menu.inRange m self) ∧ steady m p.select

/-- A menu that has been destroyed with no timer of line 179 left to fire:
its element is out of the document, none of its four listeners is attached
and none is going to be. -/
def Menu.detached (self : Menu) : Prop :=
  self.inDom = false ∧ self.clickL = false ∧ self.keydownL = false ∧
  self.resizeL = false ∧ self.docClickL = false ∧ self.docClickPending = false

/-- Whether the event makes the adapter call `renderMenu`: a primary click
on the select element, or a space, up or down keydown while a `keydownFn`
of the adapter is attached and the select element is not disabled. -/
def requestsOpening (p : Page) : Event → Bool
  | .click button => decide (button = 0)
  | .keydown keyCode =>
    decide ((keyCode = 32 ∨ keyCode = 38 ∨ keyCode = 40) ∧ p.select.hooks ≠ [] ∧
      p.select.disabled ≠ true)
  | _ => false

/-- Five options, the third selected. -/
def fiveOptions : List OptionEl :=
  [⟨"one", false⟩, ⟨"two", false⟩, ⟨"three", true⟩, ⟨"four", false⟩, ⟨"five", false⟩]

/-- An enabled select element with `fiveOptions`, 300 pixels below the top
of a viewport 100 pixels high. -/
def fiveSelect : Select :=
  (newSelect fiveOptions false 0 100 300).select

/-- The menu the constructor returns on `fiveSelect`. -/
def fiveMenu : Menu :=
  (newMenu fiveSelect).get (by decide)

/-! ## Lemmas on the element helpers -/

theorem markRow_eq_some {rows : List ItemEl} {k : Nat} (v : Bool) (h : k < rows.length) :
    markRow rows k v = some (rows.set k { rows[k] with selected := v }) := by
  simp [markRow, List.getElem?_eq_getElem h]

theorem markRow_eq_none {rows : List ItemEl} {k : Nat} (v : Bool) (h : rows.length ≤ k) :
    markRow rows k v = none := by
  simp [markRow, List.getElem?_eq_none h]

theorem markRow_length {rows rows1 : List ItemEl} {k : Nat} {v : Bool}
    (h : markRow rows k v = some rows1) : rows1.length = rows.length := by
  unfold markRow at h
  split at h
  · cases h
  · cases h; simp

theorem markRow_muiPos {rows rows1 : List ItemEl} {k : Nat} {v : Bool}
    (h : markRow rows k v = some rows1) (j : Nat) :
    (rows1[j]?).map ItemEl.muiPos = (rows[j]?).map ItemEl.muiPos := by
  unfold markRow at h
  split at h
  · cases h
  · rename_i r hr
    cases h
    by_cases hjk : k = j
    · subst hjk
      have hk : k < rows.length := by
        rcases List.getElem?_eq_some_iff.mp hr with ⟨hk, _⟩
        exact hk
      simp [List.getElem?_set_self hk, hr]
    · simp [List.getElem?_set_ne hjk]

theorem writeSelected_eq_some {children : List OptionEl} {k : Nat} (v : Bool)
    (h : k < children.length) :
    writeSelected children k v = some (children.set k { children[k] with selected := v }) := by
  simp [writeSelected, List.getElem?_eq_getElem h]

theorem addOptions_length (l : List OptionEl) (i sp : Nat) :
    (addOptions l i sp).1.length = l.length := by
  induction l generalizing i sp with
  | nil => simp [addOptions]
  | cons o rest ih => simp [addOptions, ih]

theorem addOptions_getElem? (l : List OptionEl) (i sp k : Nat) :
    (addOptions l i sp).1[k]? =
      (l[k]?).map (fun o => ({ textContent := o.textContent, muiPos := i + k,
                               selected := false } : ItemEl)) := by
  induction l generalizing i sp k with
  | nil => simp [addOptions]
  | cons o rest ih =>
    cases k with
    | zero => simp [addOptions]
    | succ k =>
      simp only [addOptions, List.getElem?_cons_succ, ih]
      congr 1
      funext o
      simp
      omega

theorem addOptions_selectedPos_lt (l : List OptionEl) (i sp : Nat) (h : sp < i + l.length) :
    (addOptions l i sp).2 < i + l.length := by
  induction l generalizing i sp with
  | nil => simpa [addOptions] using h
  | cons o rest ih =>
    simp only [addOptions, List.length_cons]
    have := ih (i + 1) (if o.selected = true then i else sp) (by split <;> simp at h ⊢ <;> omega)
    omega

/-- The loop leaves `selectedPos` at the last selected child. -/
theorem addOptions_selectedPos_eq (l : List OptionEl) (i sp s : Nat)
    (hs : (l[s]?).map OptionEl.selected = some true)
    (hlast : ∀ j : Nat, s < j → (l[j]?).map OptionEl.selected ≠ some true) :
    (addOptions l i sp).2 = i + s := by
  induction l generalizing i sp s with
  | nil => simp at hs
  | cons o rest ih =>
    cases s with
    | zero =>
      simp at hs
      simp only [addOptions, hs, if_true]
      -- no later child is selected: the accumulator stays
      have hrest : ∀ (r : List OptionEl) (i2 acc : Nat),
          (∀ j : Nat, (r[j]?).map OptionEl.selected ≠ some true) → (addOptions r i2 acc).2 = acc := by
        intro r
        induction r with
        | nil => intro i2 acc _; simp [addOptions]
        | cons o2 r2 ih2 =>
          intro i2 acc hno
          have h0 := hno 0
          simp at h0
          simp only [addOptions, h0]
          simp
          exact ih2 (i2 + 1) acc (fun j => by simpa using hno (j + 1))
      simpa using hrest rest (i + 1) i (fun j => by simpa using hlast (j + 1) (by omega))
    | succ s =>
      simp only [addOptions]
      rw [ih (i + 1) _ s (by simpa using hs) (fun j hj => by simpa using hlast (j + 1) (by omega))]
      omega

/-! ## Lemmas on construction -/

theorem newMenu_some (selectEl : Select) (h : selectEl.children ≠ []) :
    ∃ rows, markRow (addOptions selectEl.children 0 0).1 (addOptions selectEl.children 0 0).2 true
        = some rows ∧
      newMenu selectEl = some
        { origIndex := (addOptions selectEl.children 0 0).2,
          currentIndex := (addOptions selectEl.children 0 0).2,
          rows := rows,
          height := min ((selectEl.children.length : Int) * optionHeight + 2 * menuPadding)
                      selectEl.clientHeight,
          top := -1 * min (13 + ((addOptions selectEl.children 0 0).2 : ℚ) * (optionHeight : ℚ))
                      selectEl.rectTop,
          inDom := true, clickL := true, keydownL := true, resizeL := true,
          docClickL := false, blurPending := true, docClickPending := true } := by
  have hpos : 0 < selectEl.children.length := List.length_pos.mpr h
  have hlt : (addOptions selectEl.children 0 0).2 < (addOptions selectEl.children 0 0).1.length := by
    rw [addOptions_length]
    simpa using addOptions_selectedPos_lt selectEl.children 0 0 (by omega)
  refine ⟨_, markRow_eq_some true hlt, ?_⟩
  simp [newMenu, Menu._createMenuEl, markRow_eq_some true hlt]

theorem newMenu_none (selectEl : Select) (h : selectEl.children = []) :
    newMenu selectEl = none := by
  simp [newMenu, Menu._createMenuEl, h, addOptions, markRow]

/-- What every constructed menu satisfies. -/
theorem newMenu_facts {selectEl : Select} {self : Menu} (h : newMenu selectEl = some self) :
    self.origIndex = (addOptions selectEl.children 0 0).2 ∧
    self.currentIndex = self.origIndex ∧
    self.rows.length = selectEl.children.length ∧
    self.currentIndex < self.rows.length ∧
    (∀ k : Nat, (self.rows[k]?).map ItemEl.muiPos = if k < self.rows.length then some k else none) ∧
    self.inDom = true ∧ self.clickL = true ∧ self.keydownL = true ∧ self.resizeL = true ∧
    self.docClickL = false ∧ self.blurPending = true ∧ self.docClickPending = true := by
  by_cases hne : selectEl.children = []
  · rw [newMenu_none selectEl hne] at h; cases h
  · obtain ⟨rows, hrows, heq⟩ := newMenu_some selectEl hne
    rw [heq] at h
    cases h
    have hlen : rows.length = selectEl.children.length := by
      rw [markRow_length hrows, addOptions_length]
    have hpos : 0 < selectEl.children.length := List.length_pos.mpr hne
    refine ⟨rfl, rfl, hlen, ?_, ?_, rfl, rfl, rfl, rfl, rfl, rfl, rfl⟩
    · show (addOptions selectEl.children 0 0).2 < rows.length
      rw [hlen]
      simpa using addOptions_selectedPos_lt selectEl.children 0 0 (by omega)
    · intro k
      show (rows[k]?).map ItemEl.muiPos = if k < rows.length then some k else none
      rw [markRow_muiPos hrows k, addOptions_getElem?, hlen]
      by_cases hk : k < selectEl.children.length
      · simp [List.getElem?_eq_getElem hk, hk]
      · simp [List.getElem?_eq_none (Nat.le_of_not_lt hk), hk]

/-! ## Lemmas on navigation -/

theorem increment_ok (self : Menu) (h : self.currentIndex < self.rows.length) :
    ∃ rows1, Menu.increment self =
        .ok { self with rows := rows1,
                        currentIndex := min (self.currentIndex + 1) (self.rows.length - 1) } ∧
      rows1.length = self.rows.length ∧
      ∀ k : Nat, (rows1[k]?).map ItemEl.muiPos = (self.rows[k]?).map ItemEl.muiPos := by
  by_cases hlast : (self.currentIndex : Int) = (self.rows.length : Int) - 1
  · refine ⟨self.rows, ?_, rfl, fun _ => rfl⟩
    have hmin : min (self.currentIndex + 1) (self.rows.length - 1) = self.currentIndex := by omega
    simp [Menu.increment, hlast, hmin]
  · have h1 : self.currentIndex + 1 < self.rows.length := by omega
    have hmin : min (self.currentIndex + 1) (self.rows.length - 1) = self.currentIndex + 1 := by
      omega
    obtain ⟨r1, e1⟩ : ∃ r1, markRow self.rows self.currentIndex false = some r1 :=
      ⟨_, markRow_eq_some false h⟩
    have l1 := markRow_length e1
    obtain ⟨r2, e2⟩ : ∃ r2, markRow r1 (self.currentIndex + 1) true = some r2 :=
      ⟨_, markRow_eq_some true (by omega)⟩
    have l2 := markRow_length e2
    refine ⟨r2, ?_, by omega, ?_⟩
    · simp only [Menu.increment, hlast, if_false, e1, e2, hmin]
    · intro k
      rw [markRow_muiPos e2 k, markRow_muiPos e1 k]

theorem decrement_ok (self : Menu) (h : self.currentIndex < self.rows.length) :
    ∃ rows1, Menu.decrement self =
        .ok { self with rows := rows1, currentIndex := self.currentIndex - 1 } ∧
      rows1.length = self.rows.length ∧
      ∀ k : Nat, (rows1[k]?).map ItemEl.muiPos = (self.rows[k]?).map ItemEl.muiPos := by
  by_cases hzero : self.currentIndex = 0
  · refine ⟨self.rows, ?_, rfl, fun _ => rfl⟩
    cases self
    simp only at hzero
    subst hzero
    simp [Menu.decrement]
  · obtain ⟨r1, e1⟩ : ∃ r1, markRow self.rows self.currentIndex false = some r1 :=
      ⟨_, markRow_eq_some false h⟩
    have l1 := markRow_length e1
    obtain ⟨r2, e2⟩ : ∃ r2, markRow r1 (self.currentIndex - 1) true = some r2 :=
      ⟨_, markRow_eq_some true (by omega)⟩
    have l2 := markRow_length e2
    refine ⟨r2, ?_, by omega, ?_⟩
    · simp only [Menu.decrement, hzero, if_false, e1, e2]
    · intro k
      rw [markRow_muiPos e2 k, markRow_muiPos e1 k]

theorem keydown_arrow_ok (a : Arrow) (self : Menu) (selectEl : Select)
    (h : self.currentIndex < self.rows.length) :
    ∃ rows1 cur1, Menu.keydownHandler a.keyCode (self, selectEl) =
        .ok ({ self with rows := rows1, currentIndex := cur1 }, selectEl) ∧
      rows1.length = self.rows.length ∧ cur1 < rows1.length ∧
      ∀ k : Nat, (rows1[k]?).map ItemEl.muiPos = (self.rows[k]?).map ItemEl.muiPos := by
  cases a with
  | up =>
    obtain ⟨rows1, he, hl, hm⟩ := decrement_ok self h
    refine ⟨rows1, self.currentIndex - 1, ?_, hl, by omega, hm⟩
    simp [Menu.keydownHandler, Arrow.keyCode, onMenu, he]
  | down =>
    obtain ⟨rows1, he, hl, hm⟩ := increment_ok self h
    refine ⟨rows1, min (self.currentIndex + 1) (self.rows.length - 1), ?_, hl, by omega, hm⟩
    simp [Menu.keydownHandler, Arrow.keyCode, onMenu, he]

/-- Arrow keys move `currentIndex` inside the rows and write nothing else:
not the select element, not `origIndex`, not the listeners. -/
theorem pressArrows_frame (arrows : List Arrow) (self : Menu) (selectEl : Select)
    (h : self.currentIndex < self.rows.length) :
    ∃ rows1 cur1, pressArrows (self, selectEl) arrows =
        ({ self with rows := rows1, currentIndex := cur1 }, selectEl) ∧
      rows1.length = self.rows.length ∧ cur1 < rows1.length ∧
      ∀ k : Nat, (rows1[k]?).map ItemEl.muiPos = (self.rows[k]?).map ItemEl.muiPos := by
  induction arrows generalizing self with
  | nil => exact ⟨self.rows, self.currentIndex, rfl, rfl, h, fun _ => rfl⟩
  | cons a rest ih =>
    obtain ⟨rows1, cur1, he, hl, hc, hm⟩ := keydown_arrow_ok a self selectEl h
    obtain ⟨rows2, cur2, he2, hl2, hc2, hm2⟩ :=
      ih { self with rows := rows1, currentIndex := cur1 } hc
    refine ⟨rows2, cur2, ?_, by rw [hl2]; exact hl, hc2, fun k => by rw [hm2 k]; exact hm k⟩
    simp only [pressArrows, List.foldl_cons, he, settle]
    exact he2

/-! ## Commit -/

theorem selectCurrent_same (self : Menu) (selectEl : Select)
    (h : self.currentIndex = self.origIndex) :
    Menu.selectCurrent self selectEl = .ok selectEl := by
  simp [Menu.selectCurrent, h]

theorem selectCurrent_moved (self : Menu) (selectEl : Select)
    (ho : self.origIndex < selectEl.children.length)
    (hc : self.currentIndex < selectEl.children.length)
    (h : self.currentIndex ≠ self.origIndex) :
    ∃ children1, Menu.selectCurrent self selectEl =
        .ok { selectEl with children := children1,
                            changeEvents := selectEl.changeEvents + 1 } ∧
      children1.length = selectEl.children.length ∧
      (children1[self.origIndex]?).map OptionEl.selected = some false ∧
      (children1[self.currentIndex]?).map OptionEl.selected = some true ∧
      ∀ j : Nat, j ≠ self.origIndex → j ≠ self.currentIndex →
        children1[j]? = selectEl.children[j]? := by
  have e1 := @writeSelected_eq_some selectEl.children self.origIndex false ho
  have hc1 : self.currentIndex <
      (selectEl.children.set self.origIndex
        { selectEl.children[self.origIndex] with selected := false }).length := by
    simpa using hc
  have e2 := writeSelected_eq_some true hc1
  refine ⟨(selectEl.children.set self.origIndex
      { selectEl.children[self.origIndex] with selected := false }).set self.currentIndex
      { (selectEl.children.set self.origIndex
          { selectEl.children[self.origIndex] with selected := false })[self.currentIndex]
        with selected := true }, ?_, ?_, ?_, ?_, ?_⟩
  · simp only [Menu.selectCurrent, h, ne_eq, not_false_eq_true, if_true, e1, e2,
      util.dispatchEvent]
  · simp
  · rw [List.getElem?_set_ne h, List.getElem?_set_self (by simpa using ho)]
    rfl
  · rw [List.getElem?_set_self (by simpa using hc)]
    rfl
  · intro j hjo hjc
    rw [List.getElem?_set_ne (Ne.symm hjc), List.getElem?_set_ne (Ne.symm hjo)]

/-- C2. Arrow navigation is clamped: for a menu whose `currentIndex` is
below its number of rows `m` (so `m ≥ 1`), the keydown handler with key code
40 completes with `currentIndex = min (currentIndex + 1) (m - 1)` and with
key code 38 completes with `currentIndex = max (currentIndex - 1) 0`; the
number of rows stays `m` and the select element is not written. -/
theorem keydown_arrows_clamped (self : Menu) (selectEl : Select)
    (h : self.currentIndex < self.rows.length) :
    (∃ after, Menu.keydownHandler 40 (self, selectEl) = .ok (after, selectEl) ∧
        after.currentIndex = min (self.currentIndex + 1) (self.rows.length - 1) ∧
        after.currentIndex ≤ self.rows.length - 1 ∧
        after.rows.length = self.rows.length) ∧
    (∃ after, Menu.keydownHandler 38 (self, selectEl) = .ok (after, selectEl) ∧
        (after.currentIndex : Int) = max ((self.currentIndex : Int) - 1) 0 ∧
        after.rows.length = self.rows.length) := by
  constructor
  · obtain ⟨rows1, he, hl, _⟩ := increment_ok self h
    refine ⟨{ self with rows := rows1
                        currentIndex := min (self.currentIndex + 1) (self.rows.length - 1) },
      ?_, rfl, ?_, hl⟩
    · simp [Menu.keydownHandler, onMenu, he]
    · show min (self.currentIndex + 1) (self.rows.length - 1) ≤ self.rows.length - 1
      omega
  · obtain ⟨rows1, he, hl, _⟩ := decrement_ok self h
    refine ⟨{ self with rows := rows1, currentIndex := self.currentIndex - 1 }, ?_, ?_, hl⟩
    · simp [Menu.keydownHandler, onMenu, he]
    · show ((self.currentIndex - 1 : Nat) : Int) = max ((self.currentIndex : Int) - 1) 0
      omega

/-- C2, the scenario of the specification: the menu constructed over five
options with the third selected starts at `origIndex = currentIndex = 2`;
two arrow-downs give 4 and a third leaves 4, which is what the clamp gives
at the last row. -/
theorem keydown_arrows_clamped_witness :
    (fiveMenu.origIndex, fiveMenu.currentIndex) = (2, 2) ∧
    (pressArrows (fiveMenu, fiveSelect) [.down, .down]).1.currentIndex = 4 ∧
    (pressArrows (fiveMenu, fiveSelect) [.down, .down, .down]).1.currentIndex = 4 ∧
    ∃ after, Menu.keydownHandler 40 (pressArrows (fiveMenu, fiveSelect) [.down, .down]) =
        .ok (after, fiveSelect) ∧ after.currentIndex = 4 := by
  refine ⟨by decide, by decide, by decide, ?_⟩
  obtain ⟨after, he, hcur, _, _⟩ :=
    (keydown_arrows_clamped (pressArrows (fiveMenu, fiveSelect) [.down, .down]).1
      fiveSelect (by decide)).1
  exact ⟨after, he, by rw [hcur]; decide⟩

/-! ## What moving the focus leaves alone -/

theorem sameControl_refl (a : Select) : sameControl a a :=
  ⟨rfl, rfl, rfl, rfl, rfl, rfl⟩

theorem sameControl_trans {a b c : Select} (h1 : sameControl a b) (h2 : sameControl b c) :
    sameControl a c := by
  obtain ⟨a1, a2, a3, a4, a5, a6⟩ := h1
  obtain ⟨b1, b2, b3, b4, b5, b6⟩ := h2
  exact ⟨a1.trans b1, a2.trans b2, a3.trans b3, a4.trans b4, a5.trans b5, a6.trans b6⟩

theorem blurWrapper_same (s : Select) : sameControl (blurWrapper s) s := by
  unfold blurWrapper wrapperBlurred
  split <;> exact ⟨rfl, rfl, rfl, rfl, rfl, rfl⟩

theorem focusWrapper_same (s : Select) : sameControl (focusWrapper s) s := by
  unfold focusWrapper Select.wrapperFocusHandler
  split
  · exact sameControl_refl s
  · split
    · exact sameControl_trans (blurWrapper_same _) ⟨rfl, rfl, rfl, rfl, rfl, rfl⟩
    · exact ⟨rfl, rfl, rfl, rfl, rfl, rfl⟩

theorem focusHandler_same (s : Select) : sameControl (Select.focusHandler s) s := by
  unfold Select.focusHandler
  split
  · exact sameControl_refl s
  · exact sameControl_trans (focusWrapper_same _) ⟨rfl, rfl, rfl, rfl, rfl, rfl⟩

theorem focusSelect_same (s : Select) : sameControl (focusSelect s) s := by
  unfold focusSelect
  split
  · exact sameControl_refl s
  · refine sameControl_trans (focusHandler_same _) ?_
    unfold wrapperBlurred
    split <;> exact ⟨rfl, rfl, rfl, rfl, rfl, rfl⟩

theorem blurActive_same (s : Select) : sameControl (blurActive s) s := by
  unfold blurActive
  split
  · exact sameControl_refl s
  · split
    · exact blurWrapper_same s
    · exact ⟨rfl, rfl, rfl, rfl, rfl, rfl⟩

theorem destroy_ok (w : Menu × Select) (h : w.1.inDom = true) :
    Menu.destroy w = .ok (w.1.removed, focusSelect w.2) := by
  simp [Menu.destroy, Menu.removed, h]

theorem destroy_thrown (w : Menu × Select) (h : w.1.inDom = false) :
    Menu.destroy w = .error w := by
  simp [Menu.destroy, h]

/-- C5. Row click commits the clicked row: on a select element whose only
selected option is the one at index `s`, the menu is constructed, and after
any sequence of arrow keys a click on the row at position `p` (below the
number of options) completes with `currentIndex = p`, option `p` the only
selected option, the menu element out of the document and one `change` event
more than before when `p ≠ s`, none more when `p = s`. A click on the menu
element itself returns the state as it was, the menu still in the document,
and as an event of the page it changes nothing either (the handler stops
the propagation). -/
theorem rowClick_commits (selectEl : Select) (s p : Nat) (arrows : List Arrow)
    (hp : p < selectEl.children.length)
    (hone : ∀ j : Nat, (selectEl.children[j]?).map OptionEl.selected = some true ↔ j = s) :
    ∃ self, newMenu selectEl = some self ∧
      (∃ after, Menu.clickHandler (some p) (pressArrows (self, selectEl) arrows) = .ok after ∧
        after.1.currentIndex = p ∧
        (∀ j : Nat, (after.2.children[j]?).map OptionEl.selected = some true ↔ j = p) ∧
        after.2.children.length = selectEl.children.length ∧
        after.1.inDom = false ∧
        after.2.changeEvents = selectEl.changeEvents + (if p = s then 0 else 1)) ∧
      Menu.clickHandler none (pressArrows (self, selectEl) arrows) =
        .ok (pressArrows (self, selectEl) arrows) ∧
      (pressArrows (self, selectEl) arrows).1.inDom = true ∧
      ∀ (page : Page) (i : Nat), step page (.menuClick i none) = page := by
  have hne : selectEl.children ≠ [] := by
    intro h; rw [h] at hp; simp at hp
  have hs : (selectEl.children[s]?).map OptionEl.selected = some true := (hone s).mpr rfl
  have hslt : s < selectEl.children.length := by
    by_contra hcon
    rw [List.getElem?_eq_none (Nat.le_of_not_lt hcon)] at hs
    simp at hs
  have hsel : (addOptions selectEl.children 0 0).2 = s := by
    have := addOptions_selectedPos_eq selectEl.children 0 0 s hs
      (fun j hj hcon => by have := (hone j).mp hcon; omega)
    simpa using this
  obtain ⟨self, heq⟩ : ∃ self, newMenu selectEl = some self := by
    obtain ⟨rows, _, heq⟩ := newMenu_some selectEl hne
    exact ⟨_, heq⟩
  refine ⟨self, heq, ?_⟩
  obtain ⟨horig, hcur, hlen, hlt, hpos, hdom, -⟩ := newMenu_facts heq
  rw [hsel] at horig
  obtain ⟨rows1, cur1, hpress, hl1, hc1, hm1⟩ := pressArrows_frame arrows self selectEl hlt
  rw [hpress]
  have htarget : targetPos { self with rows := rows1, currentIndex := cur1 } (some p) = some p := by
    show (rows1[p]?).map ItemEl.muiPos = some p
    rw [hm1 p, hpos p]
    simp [hlen, hp]
  refine ⟨?_, rfl, hdom, ?_⟩
  · by_cases hps : p = s
    · have hsame := selectCurrent_same
        { self with rows := rows1, currentIndex := p } selectEl (by rw [horig]; exact hps)
      have hclick : Menu.clickHandler (some p)
          ({ self with rows := rows1, currentIndex := cur1 }, selectEl) =
          .ok (Menu.removed { self with rows := rows1, currentIndex := p },
               focusSelect selectEl) := by
        simp only [Menu.clickHandler, htarget, onSelect, hsame]
        exact destroy_ok _ hdom
      refine ⟨_, hclick, rfl, ?_, ?_, rfl, ?_⟩
      · intro j
        show ((focusSelect selectEl).children[j]?).map OptionEl.selected = some true ↔ j = p
        rw [(focusSelect_same selectEl).1, hps]
        exact hone j
      · show (focusSelect selectEl).children.length = _
        rw [(focusSelect_same selectEl).1]
      · show (focusSelect selectEl).changeEvents = _
        rw [(focusSelect_same selectEl).2.2.1]
        simp [hps]
    · obtain ⟨children1, hsc, hcl, h0, h1, hj⟩ := selectCurrent_moved
        { self with rows := rows1, currentIndex := p } selectEl
        (by rw [horig]; exact hslt) hp (by rw [horig]; exact hps)
      simp only [horig] at h0 h1 hj
      have hclick : Menu.clickHandler (some p)
          ({ self with rows := rows1, currentIndex := cur1 }, selectEl) =
          .ok (Menu.removed { self with rows := rows1, currentIndex := p },
               focusSelect { selectEl with children := children1
                                           changeEvents := selectEl.changeEvents + 1 }) := by
        simp only [Menu.clickHandler, htarget, onSelect, hsc]
        exact destroy_ok _ hdom
      refine ⟨_, hclick, rfl, ?_, ?_, rfl, ?_⟩
      · intro j
        show ((focusSelect _).children[j]?).map OptionEl.selected = some true ↔ j = p
        rw [(focusSelect_same _).1]
        show (children1[j]?).map OptionEl.selected = some true ↔ j = p
        by_cases hjp : j = p
        · subst hjp; simpa using h1
        · by_cases hjs : j = s
          · subst hjs
            rw [h0]; simp [hjp]
          · rw [hj j hjs hjp]
            constructor
            · intro hcon; exact absurd ((hone j).mp hcon) hjs
            · intro hcon; exact absurd hcon hjp
      · show (focusSelect _).children.length = _
        rw [(focusSelect_same _).1]
        exact hcl
      · show (focusSelect _).changeEvents = _
        rw [(focusSelect_same _).2.2.1]
        simp [hps]
  · intro page i
    simp only [step, runMenu]
    split
    · rfl
    · rename_i self hself
      split
      · simp only [Menu.clickHandler, targetPos, settle]
        have : page.menus.set i self = page.menus := by
          apply List.ext_getElem?
          intro k
          by_cases hk : i = k
          · subst hk
            rcases List.getElem?_eq_some_iff.mp hself with ⟨hi, _⟩
            rw [List.getElem?_set_self hi, hself]
          · rw [List.getElem?_set_ne hk]
        rw [this]
      · rfl

theorem fiveSelect_one (j : Nat) :
    (fiveSelect.children[j]?).map OptionEl.selected = some true ↔ j = 2 := by
  rcases j with _ | _ | _ | _ | _ | j <;> simp [fiveSelect, newSelect, fiveOptions]

/-- C5, the scenario of the specification: five options, the third selected;
after one arrow-down a click on the row at position 3 completes, leaves
`currentIndex = 3`, the menu element out of the document and exactly one
`change` event sent. -/
theorem rowClick_commits_witness :
    ∃ self after, newMenu fiveSelect = some self ∧
      Menu.clickHandler (some 3) (pressArrows (self, fiveSelect) [.down]) = .ok after ∧
      after.1.currentIndex = 3 ∧ after.1.inDom = false ∧ after.2.changeEvents = 1 := by
  obtain ⟨self, hnew, ⟨after, hclick, hcur, _, _, hdom, hchange⟩, _⟩ :=
    rowClick_commits fiveSelect 2 3 [.down] (by decide) fiveSelect_one
  exact ⟨self, after, hnew, hclick, hcur, hdom, by rw [hchange]; rfl⟩

/-- Height written on the menu element when the select element has at least
one option: `min (m * 42 + 2 * 8) v`, at most the client height `v`. -/
theorem createMenuEl_height (selectEl : Select) (h : selectEl.children ≠ []) :
    ∃ self, Menu._createMenuEl selectEl = some self ∧
      self.height = min ((selectEl.children.length : Int) * 42 + 2 * 8) selectEl.clientHeight ∧
      self.height ≤ selectEl.clientHeight := by
  have hpos : 0 < selectEl.children.length := List.length_pos.mpr h
  have hlt : (addOptions selectEl.children 0 0).2 < (addOptions selectEl.children 0 0).1.length := by
    rw [addOptions_length]
    simpa using addOptions_selectedPos_lt selectEl.children 0 0 (by omega)
  simp only [Menu._createMenuEl, markRow_eq_some true hlt, optionHeight, menuPadding]
  exact ⟨_, rfl, rfl, min_le_right _ _⟩

/-- C8, at the select element without options: for every client height `v`
and every top coordinate `t`, `_createMenuEl` throws at line 213
(`menuEl.children[0]` is `undefined`) before the height of lines 222-224 is
computed, the constructor writes no height, and a primary click on the
select element leaves the page without a menu. The claim gives the height
`min (0 * 42 + 16) v` there. -/
theorem createMenuEl_no_options (v : Int) (t : ℚ) :
    Menu._createMenuEl (newSelect [] false 0 v t).select = none ∧
    newMenu (newSelect [] false 0 v t).select = none ∧
    (step (newSelect [] false 0 v t) (.click 0)).menus = [] := by
  refine ⟨rfl, rfl, rfl⟩

/-- C9. Vertical offset: on a select element whose last selected option is
at index `s` and whose top coordinate is the rational `t = rectTop`,
`_createMenuEl` returns a menu element with `origIndex = s` whose style
`top` is the negation of `min (13 + s * 42) t`; so the shift upward is at
most `t` and at most `13 + s * 42`, and nothing else bounds it. The
constructor keeps that style. -/
theorem createMenuEl_top (selectEl : Select) (s : Nat)
    (hs : (selectEl.children[s]?).map OptionEl.selected = some true)
    (hlast : ∀ j : Nat, s < j → (selectEl.children[j]?).map OptionEl.selected ≠ some true) :
    ∃ self, Menu._createMenuEl selectEl = some self ∧
      self.origIndex = s ∧
      self.top = -(min (13 + (s : ℚ) * 42) selectEl.rectTop) ∧
      -self.top ≤ selectEl.rectTop ∧
      -self.top ≤ 13 + (s : ℚ) * 42 ∧
      (newMenu selectEl).map Menu.top = some self.top := by
  have hslt : s < selectEl.children.length := by
    by_contra hcon
    rw [List.getElem?_eq_none (Nat.le_of_not_lt hcon)] at hs
    simp at hs
  have hsel : (addOptions selectEl.children 0 0).2 = s := by
    simpa using addOptions_selectedPos_eq selectEl.children 0 0 s hs hlast
  have hlt : (addOptions selectEl.children 0 0).2 < (addOptions selectEl.children 0 0).1.length := by
    rw [addOptions_length, hsel]; exact hslt
  obtain ⟨rows, hrows⟩ : ∃ rows, markRow (addOptions selectEl.children 0 0).1
      (addOptions selectEl.children 0 0).2 true = some rows := ⟨_, markRow_eq_some true hlt⟩
  simp only [newMenu, Menu._createMenuEl, hrows, optionHeight]
  refine ⟨_, rfl, hsel, ?_, ?_, ?_, rfl⟩
  · simp only [hsel]
    norm_num
  · simp only [hsel]
    norm_num
  · simp only [hsel]
    norm_num

/-- C9, over five options with the third selected and the select element
300 pixels below the top of the viewport: the offset is
`min (13 + 2 * 42) 300 = 97` and the style `top` is `-97`. -/
theorem createMenuEl_top_witness :
    ∃ self, Menu._createMenuEl fiveSelect = some self ∧ self.origIndex = 2 ∧
      self.top = -97 := by
  obtain ⟨self, he, horig, htop, _⟩ :=
    createMenuEl_top fiveSelect 2 (by decide)
      (fun j hj hcon => by have := (fiveSelect_one j).mp hcon; omega)
  refine ⟨self, he, horig, ?_⟩
  rw [htop]
  norm_num [fiveSelect, newSelect]

/-! ## The adapter stays tame -/

theorem blurWrapper_tame (s : Select) (h : tame s) : tame (blurWrapper s) := by
  unfold blurWrapper wrapperBlurred
  split
  · exact ⟨by simp, fun _ => rfl⟩
  · exact h

theorem focusWrapper_tame (s : Select) (h : s.hooks.length ≤ 1) : tame (focusWrapper s) := by
  unfold focusWrapper Select.wrapperFocusHandler blurWrapper wrapperBlurred
  split
  · rename_i hact
    exact ⟨h, fun hne => absurd hact hne⟩
  · split
    · simp [tame]
    · exact ⟨h, fun hne => absurd rfl hne⟩

theorem focusHandler_tame (s : Select) (h : s.hooks = []) : tame (Select.focusHandler s) := by
  unfold Select.focusHandler
  split
  · exact ⟨by simp [h], fun _ => h⟩
  · exact focusWrapper_tame _ (by simp [h])

theorem focusSelect_tame (s : Select) (h : tame s) : tame (focusSelect s) := by
  unfold focusSelect
  split
  · exact h
  · apply focusHandler_tame
    by_cases hact : s.active = Active.wrapper
    · simp [hact, wrapperBlurred]
    · simp [hact, h.2 hact]

theorem blurActive_tame (s : Select) (h : tame s) : tame (blurActive s) := by
  unfold blurActive
  split
  · exact h
  · split
    · exact blurWrapper_tame s h
    · rename_i h1 h2
      have := h.2 h2
      exact ⟨by simp [this], fun _ => this⟩

theorem steady_survives (m : Nat) : survives (steady m) :=
  ⟨fun s h => ⟨by rw [(focusSelect_same s).1]; exact h.1, focusSelect_tame s h.2⟩,
   fun _ _ _ h hc => ⟨hc.trans h.1, h.2⟩⟩

theorem ready_survives (d : Bool) : survives (ready d) := by
  refine ⟨fun s h => ?_, fun s c n h hc => ?_⟩
  · obtain ⟨hch, hdis, _, hflag, _⟩ := focusSelect_same s
    exact ⟨hflag.trans h.1, by rw [hch]; exact h.2.1, hdis.trans h.2.2⟩
  · refine ⟨h.1, ?_, h.2.2⟩
    intro hcon
    have hlen : c.length = 0 := by rw [show (c = []) from hcon]; rfl
    rw [hc] at hlen
    exact h.2.1 (List.length_eq_zero.mp hlen)

/-! ## What each listener of a menu keeps -/

theorem keeps_refl (m : Nat) (a : Menu) : keeps m a a := ⟨id, id⟩

theorem removed_keeps (m : Nat) (a : Menu) : keeps m a a.removed :=
  ⟨fun h => h, fun h => by simp [Menu.removed] at h⟩

theorem destroy_keeps (m : Nat) (S : Select → Prop) (hS : survives S)
    (self : Menu) (s : Select) (hs : S s) :
    keeps m self (settle (Menu.destroy (self, s))).1 ∧
    S (settle (Menu.destroy (self, s))).2 := by
  by_cases h : self.inDom = true
  · rw [destroy_ok (self, s) h]
    exact ⟨removed_keeps m self, hS.1 s hs⟩
  · rw [destroy_thrown (self, s) (by simpa using h)]
    exact ⟨keeps_refl m self, hs⟩

theorem writeSelected_length {children children1 : List OptionEl} {k : Nat} {v : Bool}
    (h : writeSelected children k v = some children1) : children1.length = children.length := by
  unfold writeSelected at h
  split at h
  · cases h
  · cases h; simp

theorem selectCurrent_survives (S : Select → Prop) (hS : survives S)
    (self : Menu) (s : Select) (hs : S s) :
    S (settle (Menu.selectCurrent self s)) := by
  unfold Menu.selectCurrent
  split
  · split
    · exact hs
    · rename_i children1 h1
      dsimp only
      split
      · exact hS.2 s children1 s.changeEvents hs (writeSelected_length h1)
      · rename_i children2 h2
        exact hS.2 s children2 (util.dispatchEvent s.changeEvents) hs
          ((writeSelected_length h2).trans (writeSelected_length h1))
  · exact hs

theorem onSelect_settle (w : Menu × Select) :
    settle (onSelect w) = (w.1, settle (Menu.selectCurrent w.1 w.2)) := by
  unfold onSelect
  split <;> rename_i h <;> simp [settle, h]

theorem commit_then_destroy_keeps (m : Nat) (S : Select → Prop) (hS : survives S)
    (self : Menu) (s : Select) (hs : S s) :
    keeps m self (settle (match onSelect (self, s) with
      | .ok w1 => Menu.destroy w1
      | .error w1 => .error w1)).1 ∧
    S (settle (match onSelect (self, s) with
      | .ok w1 => Menu.destroy w1
      | .error w1 => .error w1)).2 := by
  have hsel := selectCurrent_survives S hS self s hs
  have hsettle := onSelect_settle (self, s)
  cases hcase : onSelect (self, s) with
  | ok w1 =>
    rw [hcase] at hsettle
    simp only [settle] at hsettle
    subst hsettle
    exact destroy_keeps m S hS self _ hsel
  | error w1 =>
    rw [hcase] at hsettle
    simp only [settle] at hsettle
    subst hsettle
    exact ⟨keeps_refl m self, hsel⟩

theorem onMenu_arrow_keeps (m : Nat) (self : Menu) (s : Select)
    (f : Menu → Except Menu Menu)
    (hf : ∀ a : Menu, a.currentIndex < a.rows.length →
      ∃ rows1 cur1, f a = .ok { a with rows := rows1, currentIndex := cur1 } ∧
        rows1.length = a.rows.length ∧ cur1 < rows1.length ∧
        ∀ k : Nat, (rows1[k]?).map ItemEl.muiPos = (a.rows[k]?).map ItemEl.muiPos)
    (hdom : ∀ a : Menu, (settle (f a)).inDom = a.inDom) :
    keeps m self (settle (onMenu f (self, s))).1 ∧
    (settle (onMenu f (self, s))).2 = s := by
  have h1 : (settle (onMenu f (self, s))).1 = settle (f self) := by
    unfold onMenu; split <;> rename_i h <;> simp [settle, h]
  have h2 : (settle (onMenu f (self, s))).2 = s := by
    unfold onMenu; split <;> simp [settle]
  refine ⟨⟨?_, ?_⟩, h2⟩
  · intro hr
    obtain ⟨hl, hc, hp⟩ := hr
    obtain ⟨rows1, cur1, he, hl1, hc1, hm1⟩ := hf self (by rw [hl]; exact hc)
    rw [h1, he]
    exact ⟨by show rows1.length = m; rw [hl1, hl], by show cur1 < m; rw [← hl, ← hl1]; exact hc1,
      fun k => by show (rows1[k]?).map ItemEl.muiPos = _; rw [hm1 k, hp k]⟩
  · rw [h1, hdom self]
    exact id

theorem increment_inDom (a : Menu) : (settle (Menu.increment a)).inDom = a.inDom := by
  unfold Menu.increment
  split
  · rfl
  · split
    · rfl
    · dsimp only
      split <;> rfl

theorem decrement_inDom (a : Menu) : (settle (Menu.decrement a)).inDom = a.inDom := by
  unfold Menu.decrement
  split
  · rfl
  · split
    · rfl
    · dsimp only
      split <;> rfl

theorem keydownHandler_keeps (m : Nat) (S : Select → Prop) (hS : survives S)
    (keyCode : Int) (self : Menu) (s : Select) (hs : S s) :
    keeps m self (settle (Menu.keydownHandler keyCode (self, s))).1 ∧
    S (settle (Menu.keydownHandler keyCode (self, s))).2 := by
  unfold Menu.keydownHandler
  split
  · exact destroy_keeps m S hS self s hs
  · split
    · exact destroy_keeps m S hS self s hs
    · split
      · obtain ⟨hk, he⟩ := onMenu_arrow_keeps m self s Menu.increment
          (fun a ha => by
            obtain ⟨rows1, he, hl, hm⟩ := increment_ok a ha
            exact ⟨rows1, _, he, hl, by rw [hl]; omega, hm⟩) increment_inDom
        exact ⟨hk, by rw [he]; exact hs⟩
      · split
        · obtain ⟨hk, he⟩ := onMenu_arrow_keeps m self s Menu.decrement
            (fun a ha => by
              obtain ⟨rows1, he, hl, hm⟩ := decrement_ok a ha
              exact ⟨rows1, _, he, hl, by rw [hl]; omega, hm⟩) decrement_inDom
          exact ⟨hk, by rw [he]; exact hs⟩
        · split
          · exact commit_then_destroy_keeps m S hS self s hs
          · exact ⟨keeps_refl m self, hs⟩

theorem clickHandler_keeps (m : Nat) (S : Select → Prop) (hS : survives S)
    (target : Option Nat) (self : Menu) (s : Select) (hs : S s) :
    keeps m self (settle (Menu.clickHandler target (self, s))).1 ∧
    S (settle (Menu.clickHandler target (self, s))).2 := by
  unfold Menu.clickHandler
  split
  · exact ⟨keeps_refl m self, hs⟩
  · rename_i pos hpos
    have hstep := commit_then_destroy_keeps m S hS { self with currentIndex := pos } s hs
    refine ⟨⟨?_, ?_⟩, hstep.2⟩
    · intro hr
      apply hstep.1.1
      obtain ⟨hl, hc, hp⟩ := hr
      refine ⟨hl, ?_, hp⟩
      show pos < m
      -- the tag of a row is its index, which is below `m`
      cases target with
      | none => simp [targetPos] at hpos
      | some k =>
        simp only [targetPos] at hpos
        have hk := hp k
        rw [hpos] at hk
        by_cases hkm : k < m
        · simp [hkm] at hk; omega
        · simp [hkm] at hk
    · intro hd
      exact hstep.1.2 hd

/-! ## Dispatch to the menus -/

theorem runMenus_keeps (m : Nat) (S : Select → Prop) (has : Menu → Bool)
    (f : Menu × Select → Except (Menu × Select) (Menu × Select))
    (hf : ∀ self s, S s →
      keeps m self (settle (f (self, s))).1 ∧ S (settle (f (self, s))).2)
    (menus : List Menu) (s : Select) (hs : S s) :
    List.Forall₂ (keeps m) menus (runMenus has f menus s).1 ∧
    S (runMenus has f menus s).2 := by
  induction menus generalizing s with
  | nil => exact ⟨List.Forall₂.nil, hs⟩
  | cons self rest ih =>
    simp only [runMenus]
    by_cases hhas : has self = true
    · simp only [hhas, if_true]
      obtain ⟨hk, hs1⟩ := hf self s hs
      obtain ⟨hrest, hs2⟩ := ih _ hs1
      exact ⟨List.Forall₂.cons hk hrest, hs2⟩
    · simp only [hhas, if_false]
      obtain ⟨hrest, hs2⟩ := ih s hs
      exact ⟨List.Forall₂.cons (keeps_refl m self) hrest, hs2⟩

theorem keeps_inRange {m : Nat} {before after : List Menu}
    (h : List.Forall₂ (keeps m) before after) (hb : ∀ self ∈ before, Menu.inRange m self) :
    ∀ self ∈ after, Menu.inRange m self := by
  induction h with
  | nil => intro self hself; cases hself
  | cons hk _ ih =>
    intro self hself
    rcases List.mem_cons.mp hself with rfl | hmem
    · exact hk.1 (hb _ (List.mem_cons_self _ _))
    · exact ih (fun x hx => hb x (List.mem_cons_of_mem _ hx)) self hmem

theorem keeps_count {m : Nat} {before after : List Menu}
    (h : List.Forall₂ (keeps m) before after) :
    (after.filter Menu.inDom).length ≤ (before.filter Menu.inDom).length := by
  induction h with
  | nil => simp
  | @cons a b l1 l2 hk _ ih =>
    by_cases hb : b.inDom = true
    · have ha := hk.2 hb
      simp [List.filter_cons, ha, hb, ih]
    · by_cases ha : a.inDom = true
      · simp [List.filter_cons, ha, hb]; omega
      · simp [List.filter_cons, ha, hb, ih]

theorem set_keeps (m : Nat) (menus : List Menu) (i : Nat) (a b : Menu)
    (ha : menus[i]? = some a) (hk : keeps m a b) :
    List.Forall₂ (keeps m) menus (menus.set i b) := by
  induction menus generalizing i with
  | nil => simp at ha
  | cons x rest ih =>
    cases i with
    | zero =>
      simp at ha
      subst ha
      exact List.Forall₂.cons hk (List.forall₂_same.mpr (fun y _ => keeps_refl m y))
    | succ i =>
      simp at ha
      exact List.Forall₂.cons (keeps_refl m x) (ih i ha)

theorem runMenus_nav_select (keyCode : Int)
    (hkey : keyCode = 32 ∨ keyCode = 38 ∨ keyCode = 40) (menus : List Menu) (s : Select) :
    (runMenus Menu.keydownL (Menu.keydownHandler keyCode) menus s).2 = s := by
  have hone : ∀ self : Menu, (settle (Menu.keydownHandler keyCode (self, s))).2 = s := by
    intro self
    rcases hkey with h | h | h <;> subst h <;>
      simp only [Menu.keydownHandler, onMenu] <;> norm_num <;>
      first
        | rfl
        | (split <;> rfl)
  induction menus with
  | nil => rfl
  | cons self rest ih =>
    simp only [runMenus]
    by_cases hhas : self.keydownL = true
    · simp only [hhas, if_true, hone self]
      exact ih
    · simp only [hhas, if_false]
      exact ih

/-! ## One event -/

theorem renderMenu_sound (m : Nat) (p : Page) (h : p.sound m) :
    (Select.renderMenu p).sound m ∧
    openCount (Select.renderMenu p) ≤ openCount p + 1 ∧
    (Select.renderMenu p).select.hooks = p.select.hooks := by
  unfold Select.renderMenu
  split
  · exact ⟨⟨h.1, h.2.1, h.2.2⟩, Nat.le_succ _, rfl⟩
  · split
    · exact ⟨h, Nat.le_succ _, rfl⟩
    · rename_i self hnew
      obtain ⟨_, _, hlen, hlt, hpos, -⟩ := newMenu_facts hnew
      refine ⟨⟨?_, h.2⟩, ?_, rfl⟩
      · intro x hx
        rcases List.mem_append.mp hx with hx | hx
        · exact h.1 x hx
        · simp at hx
          subst hx
          have hm : x.rows.length = m := by rw [hlen]; exact h.2.1
          exact ⟨hm, by rw [← hm]; exact hlt, fun k => by rw [hpos k, hm]⟩
      · simp only [openCount, List.filter_append, List.length_append]
        have : ([self].filter Menu.inDom).length ≤ 1 := by
          simpa using List.length_filter_le Menu.inDom [self]
        omega

theorem step_sound (m : Nat) (p : Page) (e : Event) (h : p.sound m) :
    (step p e).sound m ∧
    openCount (step p e) ≤ openCount p + (if requestsOpening p e = true then 1 else 0) := by
  obtain ⟨hmenus, hsel⟩ := h
  cases e with
  | touchstart => exact ⟨⟨hmenus, hsel.1, hsel.2⟩, by simp [step, openCount]⟩
  | mousedown button => exact ⟨⟨hmenus, hsel⟩, by simp [step]⟩
  | focus => exact ⟨⟨hmenus, (steady_survives m).1 _ hsel⟩, by simp [step, openCount]⟩
  | wrapperFocus =>
    refine ⟨⟨hmenus, ?_, focusWrapper_tame _ hsel.2.1⟩, by simp [step, openCount]⟩
    show (focusWrapper p.select).children.length = m
    rw [(focusWrapper_same _).1]; exact hsel.1
  | wrapperBlur =>
    refine ⟨⟨hmenus, ?_, blurWrapper_tame _ hsel.2⟩, by simp [step, openCount]⟩
    show (blurWrapper p.select).children.length = m
    rw [(blurWrapper_same _).1]; exact hsel.1
  | click button =>
    simp only [step]
    have h1 : (Select.clickHandler button p).sound m ∧
        openCount (Select.clickHandler button p) ≤
          openCount p + (if requestsOpening p (.click button) = true then 1 else 0) := by
      unfold Select.clickHandler
      by_cases hb : button = 0
      · obtain ⟨hs, hc, _⟩ := renderMenu_sound m p ⟨hmenus, hsel⟩
        simp only [hb, ne_eq, not_true_eq_false, if_false, requestsOpening, decide_True, if_true]
        exact ⟨hs, hc⟩
      · simp only [hb, ne_eq, not_false_eq_true, if_true]
        exact ⟨⟨hmenus, hsel⟩, Nat.le_add_right _ _⟩
    obtain ⟨hrel, hs2⟩ := runMenus_keeps m (steady m) Menu.docClickL Menu.destroy
      (destroy_keeps m (steady m) (steady_survives m))
      (Select.clickHandler button p).menus (Select.clickHandler button p).select h1.1.2
    exact ⟨⟨keeps_inRange hrel h1.1.1, hs2⟩, le_trans (keeps_count hrel) h1.2⟩
  | keydown keyCode =>
    simp only [step]
    obtain ⟨hrel, hs2⟩ := runMenus_keeps m (steady m) Menu.keydownL
      (Menu.keydownHandler keyCode)
      (keydownHandler_keeps m (steady m) (steady_survives m) keyCode) p.menus p.select hsel
    have hsound1 : Page.sound m
        { select := (runMenus Menu.keydownL (Menu.keydownHandler keyCode) p.menus p.select).2,
          menus := (runMenus Menu.keydownL (Menu.keydownHandler keyCode) p.menus p.select).1 } :=
      ⟨keeps_inRange hrel hmenus, hs2⟩
    have hcount1 := keeps_count hrel
    have hlen : p.select.hooks.length = 0 ∨ p.select.hooks.length = 1 := by
      have := hsel.2.1; omega
    rcases hlen with h0 | h1
    · rw [h0]
      exact ⟨hsound1, le_trans hcount1 (Nat.le_add_right _ _)⟩
    · rw [h1]
      simp only [Function.iterate_succ, Function.iterate_zero, Function.comp_apply, id_eq]
      have hne : p.select.hooks ≠ [] := by
        intro hcon; rw [hcon] at h1; simp at h1
      unfold Select.keydownHandler
      by_cases hkey : keyCode = 32 ∨ keyCode = 38 ∨ keyCode = 40
      · simp only [hkey, if_true]
        have hsame := runMenus_nav_select keyCode hkey p.menus p.select
        rw [hsame] at hsound1
        by_cases hdis : p.select.disabled = true
        · simp only [hsame, hdis, ne_eq, not_true_eq_false, if_false]
          refine ⟨hsound1, le_trans hcount1 (Nat.le_add_right _ _)⟩
        · have hd : p.select.disabled = false := by simpa using hdis
          simp only [hsame, hd, ne_eq, Bool.false_eq_true, not_false_eq_true, if_true]
          obtain ⟨hs, hc, _⟩ := renderMenu_sound m _ hsound1
          refine ⟨hs, le_trans hc ?_⟩
          have hreq : requestsOpening p (.keydown keyCode) = true := by
            simp [requestsOpening, hkey, hne, hdis]
          rw [hreq]
          simp only [if_true]
          exact Nat.add_le_add_right hcount1 1
      · simp only [hkey, if_false]
        exact ⟨hsound1, le_trans hcount1 (Nat.le_add_right _ _)⟩
  | menuClick i target =>
    simp only [step, runMenu, requestsOpening]
    split
    · exact ⟨⟨hmenus, hsel⟩, by simp⟩
    · rename_i self hself
      split
      · obtain ⟨hk, hs2⟩ := clickHandler_keeps m (steady m) (steady_survives m) target self
          p.select hsel
        have hrel := set_keeps m p.menus i self _ hself hk
        exact ⟨⟨keeps_inRange hrel hmenus, hs2⟩, by simpa using keeps_count hrel⟩
      · exact ⟨⟨hmenus, hsel⟩, by simp⟩
  | outsideClick =>
    simp only [step]
    obtain ⟨hrel, hs2⟩ := runMenus_keeps m (steady m) Menu.docClickL Menu.destroy
      (destroy_keeps m (steady m) (steady_survives m))
      p.menus p.select hsel
    exact ⟨⟨keeps_inRange hrel hmenus, hs2⟩, by simpa [requestsOpening] using keeps_count hrel⟩
  | resize =>
    simp only [step]
    obtain ⟨hrel, hs2⟩ := runMenus_keeps m (steady m) Menu.resizeL Menu.destroy
      (destroy_keeps m (steady m) (steady_survives m))
      p.menus p.select hsel
    exact ⟨⟨keeps_inRange hrel hmenus, hs2⟩, by simpa [requestsOpening] using keeps_count hrel⟩
  | blurTimer i =>
    simp only [step, requestsOpening]
    split
    · exact ⟨⟨hmenus, hsel⟩, by simp⟩
    · rename_i self hself
      split
      · have hrel := set_keeps m p.menus i self { self with blurPending := false } hself
          ⟨fun hr => hr, fun hd => hd⟩
        refine ⟨⟨keeps_inRange hrel hmenus, ?_, blurActive_tame _ hsel.2⟩,
          by simpa using keeps_count hrel⟩
        show (blurActive p.select).children.length = m
        rw [(blurActive_same _).1]; exact hsel.1
      · exact ⟨⟨hmenus, hsel⟩, by simp⟩
  | clickTimer i =>
    simp only [step, requestsOpening]
    split
    · exact ⟨⟨hmenus, hsel⟩, by simp⟩
    · rename_i self hself
      split
      · have hrel := set_keeps m p.menus i self
          { self with docClickPending := false, docClickL := true } hself
          ⟨fun hr => hr, fun hd => hd⟩
        exact ⟨⟨keeps_inRange hrel hmenus, hsel⟩, by simpa using keeps_count hrel⟩
      · exact ⟨⟨hmenus, hsel⟩, by simp⟩

theorem run_sound (m : Nat) (evs : List Event) (p : Page) (h : p.sound m) :
    (run p evs).sound m := by
  induction evs generalizing p with
  | nil => exact h
  | cons e rest ih => exact ih (step p e) (step_sound m p e h).1

theorem newSelect_sound (children : List OptionEl) (disabled : Bool)
    (tabIndex clientHeight : Int) (rectTop : ℚ) :
    (newSelect children disabled tabIndex clientHeight rectTop).sound children.length :=
  ⟨fun _ h => by simp [newSelect] at h, rfl, by simp [newSelect], fun _ => rfl⟩

/-! ## Touch -/

theorem ready_of_same {d : Bool} {a b : Select} (hab : sameControl a b) (h : ready d b) :
    ready d a := by
  obtain ⟨hch, hdis, _, hflag, _⟩ := hab
  exact ⟨hflag.trans h.1, by rw [hch]; exact h.2.1, hdis.trans h.2.2⟩

theorem renderMenu_ready (d : Bool) (p : Page) (h : ready d p.select) :
    ready d (Select.renderMenu p).select := by
  unfold Select.renderMenu
  split
  · rename_i hflag
    rw [h.1] at hflag
    cases hflag
  · split <;> exact h

theorem selectKeydown_ready (d : Bool) (keyCode : Int) (p : Page) (h : ready d p.select) :
    ready d (Select.keydownHandler keyCode p).select := by
  unfold Select.keydownHandler
  split
  · split
    · exact renderMenu_ready d p h
    · exact h
  · exact h

theorem iterate_selectKeydown_ready (d : Bool) (keyCode : Int) (n : Nat) (p : Page)
    (h : ready d p.select) :
    ready d ((Select.keydownHandler keyCode)^[n] p).select := by
  induction n generalizing p with
  | zero => exact h
  | succ n ih =>
    rw [Function.iterate_succ_apply]
    exact ih _ (selectKeydown_ready d keyCode p h)

theorem step_ready (d : Bool) (p : Page) (e : Event) (he : e ≠ Event.touchstart)
    (h : ready d p.select) : ready d (step p e).select := by
  cases e with
  | touchstart => exact absurd rfl he
  | mousedown button => exact h
  | focus => exact (ready_survives d).1 _ h
  | wrapperFocus => exact ready_of_same (focusWrapper_same _) h
  | wrapperBlur => exact ready_of_same (blurWrapper_same _) h
  | click button =>
    simp only [step]
    have h1 : ready d (Select.clickHandler button p).select := by
      unfold Select.clickHandler
      split
      · exact h
      · exact renderMenu_ready d p h
    exact (runMenus_keeps 0 (ready d) Menu.docClickL Menu.destroy
      (destroy_keeps 0 (ready d) (ready_survives d)) _ _ h1).2
  | keydown keyCode =>
    simp only [step]
    apply iterate_selectKeydown_ready
    exact (runMenus_keeps 0 (ready d) Menu.keydownL (Menu.keydownHandler keyCode)
      (keydownHandler_keeps 0 (ready d) (ready_survives d) keyCode) _ _ h).2
  | menuClick i target =>
    simp only [step, runMenu]
    split
    · exact h
    · rename_i self hself
      split
      · exact (clickHandler_keeps 0 (ready d) (ready_survives d) target self p.select h).2
      · exact h
  | outsideClick =>
    simp only [step]
    exact (runMenus_keeps 0 (ready d) Menu.docClickL Menu.destroy
      (destroy_keeps 0 (ready d) (ready_survives d)) _ _ h).2
  | resize =>
    simp only [step]
    exact (runMenus_keeps 0 (ready d) Menu.resizeL Menu.destroy
      (destroy_keeps 0 (ready d) (ready_survives d)) _ _ h).2
  | blurTimer i =>
    simp only [step]
    split
    · exact h
    · split
      · exact ready_of_same (blurActive_same _) h
      · exact h
  | clickTimer i =>
    simp only [step]
    split
    · exact h
    · split <;> exact h

theorem run_ready (d : Bool) (evs : List Event) (p : Page)
    (hev : ∀ e ∈ evs, e ≠ Event.touchstart) (h : ready d p.select) :
    ready d (run p evs).select := by
  induction evs generalizing p with
  | nil => exact h
  | cons e rest ih =>
    exact ih (step p e) (fun x hx => hev x (List.mem_cons_of_mem _ hx))
      (step_ready d p e (hev e (List.mem_cons_self _ _)) h)

theorem renderMenu_fallback (p : Page) (h : p.select.useDefault = true) :
    Select.renderMenu p = { p with select := { p.select with useDefault := false } } := by
  simp [Select.renderMenu, h]

theorem renderMenu_constructs (p : Page) (h : p.select.useDefault = false)
    (hne : p.select.children ≠ []) :
    ∃ self, newMenu p.select = some self ∧
      Select.renderMenu p = { p with menus := p.menus ++ [self] } := by
  obtain ⟨rows, _, heq⟩ := newMenu_some p.select hne
  exact ⟨_, heq, by simp [Select.renderMenu, h, heq]⟩

theorem keydownHandler_nav (p : Page) (keyCode : Int)
    (hkey : keyCode = 32 ∨ keyCode = 38 ∨ keyCode = 40) (henabled : p.select.disabled = false) :
    Select.keydownHandler keyCode p = Select.renderMenu p := by
  unfold Select.keydownHandler
  rw [if_pos hkey, if_pos (by rw [henabled]; decide)]

theorem clickHandler_primary (p : Page) : Select.clickHandler 0 p = Select.renderMenu p := by
  simp [Select.clickHandler]

/-- C7. Touch fallback consumes exactly one suppression. After
`touchstartHandler` the flag `useDefault` is true. While it is true, a
primary-button mousedown does not call `preventDefault` and `focusHandler`
returns the state as it was. The first opening request after that, a
primary-button click or a space, up or down keydown on the enabled select
element, constructs no menu and only clears the flag; the same request made
again constructs a menu when the select element has an option, and so does
the next request after any events `evs` without a touchstart. And on a page
without a menu, after touchstart, mousedown, focus, click there is still no
menu. -/
theorem touch_fallback_once (p : Page) (keyCode : Int) (evs : List Event)
    (hkey : keyCode = 32 ∨ keyCode = 38 ∨ keyCode = 40)
    (henabled : p.select.disabled = false) (hne : p.select.children ≠ [])
    (hev : ∀ e ∈ evs, e ≠ Event.touchstart) :
    (Select.touchstartHandler p.select).useDefault = true ∧
    (p.select.useDefault = true →
      Select.mousedownHandler 0 p.select = false ∧
      Select.focusHandler p.select = p.select ∧
      Select.clickHandler 0 p = { p with select := { p.select with useDefault := false } } ∧
      Select.keydownHandler keyCode p =
        { p with select := { p.select with useDefault := false } } ∧
      (∃ self, newMenu { p.select with useDefault := false } = some self ∧
        Select.clickHandler 0 (Select.clickHandler 0 p) =
          { select := { p.select with useDefault := false }, menus := p.menus ++ [self] } ∧
        Select.keydownHandler keyCode (Select.keydownHandler keyCode p) =
          { select := { p.select with useDefault := false }, menus := p.menus ++ [self] }) ∧
      (∃ self, newMenu (run p (Event.click 0 :: evs)).select = some self ∧
        Select.clickHandler 0 (run p (Event.click 0 :: evs)) =
          { select := (run p (Event.click 0 :: evs)).select,
            menus := (run p (Event.click 0 :: evs)).menus ++ [self] } ∧
        Select.keydownHandler keyCode (run p (Event.click 0 :: evs)) =
          { select := (run p (Event.click 0 :: evs)).select,
            menus := (run p (Event.click 0 :: evs)).menus ++ [self] })) ∧
    (p.menus = [] →
      (run p [.touchstart, .mousedown 0, .focus, .click 0]).menus = []) := by
  refine ⟨rfl, ?_, ?_⟩
  · intro h
    have hclick : Select.clickHandler 0 p =
        { p with select := { p.select with useDefault := false } } := by
      rw [clickHandler_primary, renderMenu_fallback p h]
    have hkeydown : Select.keydownHandler keyCode p =
        { p with select := { p.select with useDefault := false } } := by
      rw [keydownHandler_nav p keyCode hkey henabled, renderMenu_fallback p h]
    obtain ⟨self, hnew, hrender⟩ := renderMenu_constructs
      { p with select := { p.select with useDefault := false } } rfl hne
    have hfirst : ready false (step p (Event.click 0)).select := by
      simp only [step]
      refine (runMenus_keeps 0 (ready false) Menu.docClickL Menu.destroy
        (destroy_keeps 0 (ready false) (ready_survives false)) _ _ ?_).2
      rw [hclick]
      exact ⟨rfl, hne, henabled⟩
    have hlater : ready false (run p (Event.click 0 :: evs)).select :=
      run_ready false evs (step p (Event.click 0)) hev hfirst
    obtain ⟨self2, hnew2, hrender2⟩ := renderMenu_constructs
      (run p (Event.click 0 :: evs)) hlater.1 hlater.2.1
    refine ⟨by simp [Select.mousedownHandler, h], by simp [Select.focusHandler, h],
      hclick, hkeydown, ⟨self, hnew, ?_, ?_⟩, ⟨self2, hnew2, ?_, ?_⟩⟩
    · rw [hclick, clickHandler_primary]
      exact hrender
    · rw [hkeydown, keydownHandler_nav
        { p with select := { p.select with useDefault := false } } keyCode hkey henabled]
      exact hrender
    · rw [clickHandler_primary]
      exact hrender2
    · rw [keydownHandler_nav _ keyCode hkey hlater.2.2]
      exact hrender2
  · intro hm
    have hfocus : (focusSelect (Select.touchstartHandler p.select)).useDefault = true := by
      rw [(focusSelect_same _).2.2.2.1]
      rfl
    simp only [run, List.foldl_cons, List.foldl_nil, step, Select.clickHandler, ne_eq,
      not_true_eq_false, if_false]
    rw [renderMenu_fallback _ hfocus]
    simp [hm, runMenus]

/-- C7, on the page of a fresh adapter over five options: after a
touchstart, a primary click only clears the flag and the next one constructs
the menu, also after a mousedown, a focus and an escape keydown in between;
and touchstart, mousedown, focus, click leaves no menu. -/
theorem touch_fallback_once_witness :
    (Select.clickHandler 0 (step (newSelect fiveOptions false 0 100 300) .touchstart)).menus
      = [] ∧
    (Select.clickHandler 0 (Select.clickHandler 0
      (step (newSelect fiveOptions false 0 100 300) .touchstart))).menus.length = 1 ∧
    (Select.clickHandler 0 (run (step (newSelect fiveOptions false 0 100 300) .touchstart)
      [.click 0, .mousedown 0, .focus, .keydown 27])).menus.length = 1 ∧
    (run (newSelect fiveOptions false 0 100 300)
      [.touchstart, .mousedown 0, .focus, .click 0]).menus = [] := by
  have h := touch_fallback_once (step (newSelect fiveOptions false 0 100 300) .touchstart) 40
    [.mousedown 0, .focus, .keydown 27] (by decide) rfl (by decide) (by decide)
  obtain ⟨_, hflag, _⟩ := h
  obtain ⟨_, _, hclick, _, ⟨self, _, hagain, _⟩, ⟨self2, _, hlater, _⟩⟩ := hflag rfl
  refine ⟨by rw [hclick]; rfl, by rw [hagain]; rfl, ?_, ?_⟩
  · rw [hlater]
    have : (run (step (newSelect fiveOptions false 0 100 300) .touchstart)
        [.click 0, .mousedown 0, .focus, .keydown 27]).menus = [] := rfl
    simp [this]
  · exact (touch_fallback_once (newSelect fiveOptions false 0 100 300) 40 []
      (by decide) rfl (by decide) (by simp)).2.2 rfl

/-! ## A destroyed menu whose click timer had fired -/

theorem destroy_after_clickTimer (w : Menu × Select) (hdom : w.1.inDom = true)
    (hfired : w.1.docClickPending = false) :
    ∃ after, Menu.destroy w = .ok after ∧ after.1.detached :=
  ⟨_, destroy_ok w hdom, rfl, rfl, rfl, rfl, rfl, hfired⟩

theorem runMenus_detached (has : Menu → Bool)
    (f : Menu × Select → Except (Menu × Select) (Menu × Select))
    (hhas : ∀ self : Menu, self.detached → has self = false)
    (menus : List Menu) (s : Select) (i : Nat) (self : Menu)
    (hi : menus[i]? = some self) (hd : self.detached) :
    (runMenus has f menus s).1[i]? = some self := by
  induction menus generalizing s i with
  | nil => simp at hi
  | cons x rest ih =>
    cases i with
    | zero =>
      simp at hi
      subst hi
      simp [runMenus, hhas x hd]
    | succ i =>
      simp at hi
      simp only [runMenus, List.getElem?_cons_succ]
      exact ih _ i hi

theorem renderMenu_menus (p : Page) : ∃ extra, (Select.renderMenu p).menus = p.menus ++ extra := by
  unfold Select.renderMenu
  split
  · exact ⟨[], by simp⟩
  · split
    · exact ⟨[], by simp⟩
    · exact ⟨_, rfl⟩

theorem selectKeydown_menus (keyCode : Int) (p : Page) :
    ∃ extra, (Select.keydownHandler keyCode p).menus = p.menus ++ extra := by
  unfold Select.keydownHandler
  split
  · split
    · exact renderMenu_menus p
    · exact ⟨[], by simp⟩
  · exact ⟨[], by simp⟩

theorem iterate_selectKeydown_menus (keyCode : Int) (n : Nat) (p : Page) :
    ∃ extra, ((Select.keydownHandler keyCode)^[n] p).menus = p.menus ++ extra := by
  induction n generalizing p with
  | zero => exact ⟨[], by simp⟩
  | succ n ih =>
    rw [Function.iterate_succ_apply]
    obtain ⟨e1, h1⟩ := selectKeydown_menus keyCode p
    obtain ⟨e2, h2⟩ := ih (Select.keydownHandler keyCode p)
    exact ⟨e1 ++ e2, by rw [h2, h1, List.append_assoc]⟩

theorem getElem?_append_some {α : Type} (l extra : List α) (i : Nat) (a : α)
    (h : l[i]? = some a) : (l ++ extra)[i]? = some a := by
  rcases List.getElem?_eq_some_iff.mp h with ⟨hi, _⟩
  rw [List.getElem?_append_left hi]
  exact h

/-- No event of the page reaches a detached menu: it stays detached, with
its indices and rows as they were. -/
theorem detached_stays (p : Page) (e : Event) (i : Nat) (self : Menu)
    (hi : p.menus[i]? = some self) (hd : self.detached) :
    ∃ self1, (step p e).menus[i]? = some self1 ∧ self1.detached ∧
      self1.currentIndex = self.currentIndex ∧ self1.rows = self.rows := by
  have hlt : i < p.menus.length := (List.getElem?_eq_some_iff.mp hi).1
  cases e with
  | touchstart => exact ⟨self, hi, hd, rfl, rfl⟩
  | mousedown button => exact ⟨self, hi, hd, rfl, rfl⟩
  | focus => exact ⟨self, hi, hd, rfl, rfl⟩
  | wrapperFocus => exact ⟨self, hi, hd, rfl, rfl⟩
  | wrapperBlur => exact ⟨self, hi, hd, rfl, rfl⟩
  | click button =>
    refine ⟨self, ?_, hd, rfl, rfl⟩
    simp only [step]
    apply runMenus_detached Menu.docClickL Menu.destroy (fun x hx => hx.2.2.2.2.1) _ _ i self _ hd
    unfold Select.clickHandler
    split
    · exact hi
    · obtain ⟨extra, he⟩ := renderMenu_menus p
      rw [he]
      exact getElem?_append_some _ _ i self hi
  | keydown keyCode =>
    refine ⟨self, ?_, hd, rfl, rfl⟩
    simp only [step]
    obtain ⟨extra, he⟩ := iterate_selectKeydown_menus keyCode p.select.hooks.length
      { select := (runMenus Menu.keydownL (Menu.keydownHandler keyCode) p.menus p.select).2,
        menus := (runMenus Menu.keydownL (Menu.keydownHandler keyCode) p.menus p.select).1 }
    rw [he]
    apply getElem?_append_some
    exact runMenus_detached Menu.keydownL _ (fun x hx => hx.2.2.1) _ _ i self hi hd
  | menuClick j target =>
    simp only [step, runMenu]
    split
    · exact ⟨self, hi, hd, rfl, rfl⟩
    · rename_i other hother
      split
      · rename_i hhas
        by_cases hji : j = i
        · subst hji
          rw [hi] at hother
          cases hother
          rw [hd.2.1] at hhas
          cases hhas
        · exact ⟨self, by simp only [List.getElem?_set_ne hji]; exact hi, hd, rfl, rfl⟩
      · exact ⟨self, hi, hd, rfl, rfl⟩
  | outsideClick =>
    exact ⟨self, runMenus_detached Menu.docClickL _ (fun x hx => hx.2.2.2.2.1) _ _ i self hi hd,
      hd, rfl, rfl⟩
  | resize =>
    exact ⟨self, runMenus_detached Menu.resizeL _ (fun x hx => hx.2.2.2.1) _ _ i self hi hd,
      hd, rfl, rfl⟩
  | blurTimer j =>
    simp only [step]
    split
    · exact ⟨self, hi, hd, rfl, rfl⟩
    · rename_i other hother
      split
      · by_cases hji : j = i
        · subst hji
          rw [hi] at hother
          cases hother
          exact ⟨{ self with blurPending := false },
            by simp only [List.getElem?_set_self hlt], hd, rfl, rfl⟩
        · exact ⟨self, by simp only [List.getElem?_set_ne hji]; exact hi, hd, rfl, rfl⟩
      · exact ⟨self, hi, hd, rfl, rfl⟩
  | clickTimer j =>
    simp only [step]
    split
    · exact ⟨self, hi, hd, rfl, rfl⟩
    · rename_i other hother
      split
      · rename_i hpending
        by_cases hji : j = i
        · subst hji
          rw [hi] at hother
          cases hother
          rw [hd.2.2.2.2.2] at hpending
          cases hpending
        · exact ⟨self, by simp only [List.getElem?_set_ne hji]; exact hi, hd, rfl, rfl⟩
      · exact ⟨self, hi, hd, rfl, rfl⟩

/-- A menu destroyed after its click timer fired stays detached along every
sequence of events. -/
theorem detached_forever (evs : List Event) (p : Page) (i : Nat) (self : Menu)
    (hi : p.menus[i]? = some self) (hd : self.detached) :
    ∃ self1, (run p evs).menus[i]? = some self1 ∧ self1.detached := by
  induction evs generalizing p self with
  | nil => exact ⟨self, hi, hd⟩
  | cons e rest ih =>
    obtain ⟨self1, h1, hd1, _, _⟩ := detached_stays p e i self hi hd
    exact ih (step p e) self1 h1 hd1

/-! ## Reachable states -/

/-- C3. Index range: on a select element with `m ≥ 1` options the
constructor returns a menu with `origIndex = currentIndex`, below `m`, and
equal to the index of the selected option (the last one, should several be
selected); and in every state the page of a fresh adapter reaches by any
sequence of events (keydowns with any key code, clicks on a row or on the
menu element, and every other event of the page) every menu has
`currentIndex` below `m` and `m` rows. -/
theorem currentIndex_in_range (children : List OptionEl) (disabled : Bool)
    (tabIndex clientHeight : Int) (rectTop : ℚ) (hm : 1 ≤ children.length) :
    (∃ self, newMenu (newSelect children disabled tabIndex clientHeight rectTop).select
        = some self ∧
      self.origIndex = self.currentIndex ∧ self.currentIndex < children.length ∧
      ∀ s : Nat, (children[s]?).map OptionEl.selected = some true →
        (∀ j : Nat, s < j → (children[j]?).map OptionEl.selected ≠ some true) →
        self.currentIndex = s) ∧
    ∀ (evs : List Event),
      ∀ self ∈ (run (newSelect children disabled tabIndex clientHeight rectTop) evs).menus,
        self.currentIndex < children.length ∧ self.rows.length = children.length := by
  constructor
  · have hne : (newSelect children disabled tabIndex clientHeight rectTop).select.children ≠ [] := by
      show children ≠ []
      intro hcon; rw [hcon] at hm; simp at hm
    obtain ⟨rows, _, heq⟩ := newMenu_some _ hne
    obtain ⟨horig, hcur, hlen, hlt, -⟩ := newMenu_facts heq
    refine ⟨_, heq, hcur.symm, ?_, ?_⟩
    · have : (newSelect children disabled tabIndex clientHeight rectTop).select.children.length
          = children.length := rfl
      rw [← this, ← hlen]; exact hlt
    · intro s hs hlast
      rw [hcur, horig]
      simpa using addOptions_selectedPos_eq children 0 0 s hs hlast
  · intro evs self hself
    have hsound := run_sound children.length evs _
      (newSelect_sound children disabled tabIndex clientHeight rectTop)
    obtain ⟨hl, hc, _⟩ := hsound.1 self hself
    exact ⟨hc, hl⟩

/-- C3, over five options with the third selected: the menu starts at
index 2, and after a click that opens it and three arrow-downs every menu of
the page has `currentIndex` below 5. -/
theorem currentIndex_in_range_witness :
    (∃ self, newMenu fiveSelect = some self ∧ self.currentIndex = 2) ∧
    (run (newSelect fiveOptions false 0 100 300)
      [.click 0, .keydown 40, .keydown 40, .keydown 40]).menus.all
        (fun self => decide (self.currentIndex < 5)) = true := by
  have h := currentIndex_in_range fiveOptions false 0 100 300 (by decide)
  obtain ⟨⟨self, hnew, _, _, hsel⟩, hall⟩ := h
  refine ⟨⟨self, hnew, hsel 2 (by decide) ?_⟩, ?_⟩
  · intro j hj hcon
    have := (fiveSelect_one j).mp hcon
    omega
  · exact List.all_eq_true.mpr (fun x hx => decide_eq_true (hall _ x hx).1)

/-- What `destroy` does to its menu: the element leaves the document and
the four listeners are detached, but the timer of line 179 is not cancelled. -/
theorem destroy_detaches (w : Menu × Select) (h : w.1.inDom = true) :
    ∃ after, Menu.destroy w = .ok after ∧ after.1.inDom = false ∧
      after.1.clickL = false ∧ after.1.keydownL = false ∧ after.1.docClickL = false ∧
      after.1.resizeL = false ∧ after.1.docClickPending = w.1.docClickPending :=
  ⟨_, destroy_ok w h, rfl, rfl, rfl, rfl, rfl, rfl⟩

/-- C4, at the exit that comes before the timer of line 179 fires: a primary
click opens the menu, escape destroys it (the element leaves the document,
`jqLite.off` finds no document click listener to remove), then the timer
fires and attaches `destroyCallbackFn` to the document. The menu element is
out of the document and the document click listener is attached; an outside
click then calls `destroy`, which throws at line 333 before line 339, so the
listener stays attached. The same happens with tab, enter, a row click or a
resize in place of escape. When both timers fire before the escape, the
listener is detached (last conjunct). -/
theorem destroy_before_clickTimer :
    (run (newSelect fiveOptions false 0 100 300)
      [.click 0, .keydown 27, .clickTimer 0]).menus.map
        (fun self => (self.inDom, self.docClickL)) = [(false, true)] ∧
    (run (newSelect fiveOptions false 0 100 300)
      [.click 0, .keydown 27, .clickTimer 0, .outsideClick]).menus.map
        (fun self => (self.inDom, self.docClickL)) = [(false, true)] ∧
    (run (newSelect fiveOptions false 0 100 300)
      [.click 0, .resize, .clickTimer 0]).menus.map
        (fun self => (self.inDom, self.docClickL)) = [(false, true)] ∧
    (run (newSelect fiveOptions false 0 100 300)
      [.click 0, .keydown 9, .clickTimer 0]).menus.map
        (fun self => (self.inDom, self.docClickL)) = [(false, true)] ∧
    (run (newSelect fiveOptions false 0 100 300)
      [.click 0, .keydown 13, .clickTimer 0]).menus.map
        (fun self => (self.inDom, self.docClickL)) = [(false, true)] ∧
    (run (newSelect fiveOptions false 0 100 300)
      [.click 0, .menuClick 0 (some 3), .clickTimer 0]).menus.map
        (fun self => (self.inDom, self.docClickL)) = [(false, true)] ∧
    (run (newSelect fiveOptions false 0 100 300)
      [.click 0, .blurTimer 0, .clickTimer 0, .keydown 27]).menus.map
        (fun self => (self.inDom, self.docClickL)) = [(false, false)] := by
  refine ⟨by decide, by decide, by decide, by decide, by decide, by decide, by decide⟩

end MuiSelect
